import Mathlib

/-!
Verification development for the reading-plan scheduling engine of
`plan_lectura.py` (Reading_planner repository).

The engine is shallowly embedded:
  * calendar dates are day numbers (`Nat`); the weekday of day `d` is
    `d % 7` (the epoch is chosen so that day 0 is a Monday, matching
    Python's `date.weekday()` convention 0 = Monday);
  * `datetime` timestamps are rational minutes since midnight of day 0,
    so `datetime.combine(d, t)` becomes `d * 1440 + t` and
    `timedelta(minutes = m)` becomes `+ m`;
  * Python floats (minute/hour quantities) are embedded as `ℚ`;
  * `datetime.now()` (used only for the `dtstamp` field of events) is
    embedded as an explicit clock `Nat → Int` giving the stamp of the
    n-th emitted event;
  * Python's builtin `hash` on strings (used only inside event uids) is
    embedded as an explicit parameter `String → Int`, fixed for a run
    (it is fixed within one interpreter session);
  * `strftime` renderings of dates/datetimes are kept as the underlying
    values (the calendar date of a timestamp `ts` is `⌊ts / 1440⌋`);
    string formatting of numbers inside free-text descriptions is
    abstracted by total computable formatters (`format_f0`, `format_f2`,
    `format_int` below).
-/

namespace PlanLectura

/-- `Book = namedtuple("Book", ["title", "pages", "category"])`. -/
structure Book where
  title : String
  pages : Nat
  category : String
  deriving DecidableEq, Repr

/-- Embedding of Python `dict.get(key, fallback)` for the reading-speed
table, which is passed around as a `Dict[str, float]` in the source. -/
def dict_get (table : List (String × ℚ)) (key : String) (fallback : ℚ) : ℚ :=
  match table.find? (fun p => p.1 == key) with
  | some p => p.2
  | none => fallback

/-- `calculate_reading_time_minutes`: `book.pages * reading_speeds.get(book.category, 2.0)`. -/
def calculate_reading_time_minutes (book : Book) (reading_speeds : List (String × ℚ)) : ℚ :=
  (book.pages : ℚ) * dict_get reading_speeds book.category 2

/-- `calculate_reading_time_hours`: minutes divided by 60. -/
def calculate_reading_time_hours (book : Book) (reading_speeds : List (String × ℚ)) : ℚ :=
  calculate_reading_time_minutes book reading_speeds / 60

/-- Embedding of Python `str.replace(target, repl)` for a single-character
pattern: every occurrence of the character is replaced, left to right,
which for a one-character pattern is exactly a per-character substitution. -/
def replace_char (target : Char) (repl : List Char) (s : List Char) : List Char :=
  s.flatMap (fun c => if c = target then repl else [c])

/-- `escape_ics_text`, at the character-list level: the source chains
`.replace("\\", "\\\\").replace(",", "\\,").replace(";", "\\;").replace("\n", "\\n")`,
backslash first. -/
def escape_chars (s : List Char) : List Char :=
  replace_char '\n' ['\\', 'n']
    (replace_char ';' ['\\', ';']
      (replace_char ',' ['\\', ',']
        (replace_char '\\' ['\\', '\\'] s)))

/-- `escape_ics_text` on strings. -/
def escape_ics_text (s : String) : String :=
  ⟨escape_chars s.data⟩

/-- The per-character escaping function that the chained replaces of
`escape_ics_text` amount to (proved below in `escape_chars_eq_bind`). -/
def escChar (c : Char) : List Char :=
  if c = '\\' then ['\\', '\\']
  else if c = ',' then ['\\', ',']
  else if c = ';' then ['\\', ';']
  else if c = '\n' then ['\\', 'n']
  else [c]

/-- Modelled from the spec: the repository has no unescape function (only
the serializer-side `escape_ics_text` exists in the source); the spec's
escaping round-trip property speaks of "the inverse unescape", which maps
each backslash-escaped form back to its character: `\\`→`\`, `\,`→`,`,
`\;`→`;`, `\n`→newline, scanning left to right. -/
def unescape_chars : List Char → List Char
  | [] => []
  | [c] => [c]
  | c :: d :: rest =>
    if c = '\\' then
      if d = '\\' then '\\' :: unescape_chars rest
      else if d = ',' then ',' :: unescape_chars rest
      else if d = ';' then ';' :: unescape_chars rest
      else if d = 'n' then '\n' :: unescape_chars rest
      else c :: unescape_chars (d :: rest)
    else c :: unescape_chars (d :: rest)

/-- Modelled from the spec: string-level inverse of `escape_ics_text`. -/
def unescape_ics_text (s : String) : String :=
  ⟨unescape_chars s.data⟩

/-- A VALARM block: the source renders each reminder as a text block
determined by its `minutes` offset (trigger `-PT{minutes}M`) and its
escaped description; the block is kept as this data. -/
structure Valarm where
  minutes : ℚ
  description : String
  deriving DecidableEq, Repr

/-- The two named reminder sets of `reminders_config`. -/
structure RemindersConfig where
  normal : List Valarm
  review : List Valarm
  deriving DecidableEq, Repr

/-- `create_valarm_blocks`: one block per reminder, description escaped. -/
def create_valarm_blocks (reminders : List Valarm) : List Valarm :=
  reminders.map (fun r => ⟨r.minutes, escape_ics_text r.description⟩)

/-- Abstraction of Python `f"{x:.0f}"` on a float: rounding to the nearest
integer (Mathlib's `round` is half-up where Python's float formatting is
half-even; the value only appears inside free-text descriptions). -/
def format_f0 (q : ℚ) : String :=
  toString (round q)

/-- Abstraction of Python `f"{x:.2f}"`: two decimal digits (same half-way
caveat as `format_f0`; used only inside free-text descriptions, for the
always-nonnegative hour totals). -/
def format_f2 (q : ℚ) : String :=
  let c : Int := round (q * 100)
  toString (c / 100) ++ "." ++ (if (c % 100).natAbs < 10 then "0" else "") ++
    toString (c % 100).natAbs

/-- Abstraction of Python `f"{n}"` for a quantity that is an `int` in the
source (`review_time_per_book_min`, embedded into `ℚ` like the other
minute quantities): the numerator of an integral rational is that int. -/
def format_int (q : ℚ) : String :=
  toString q.num

/-- Embedding of Python `round(x, 2)` used for the ledger's hour total
(half-up on rationals where Python is half-even on floats). -/
def py_round2 (q : ℚ) : ℚ :=
  ((round (q * 100) : Int) : ℚ) / 100

/-- A calendar event as assembled by `add_event`. Timestamps (`dtstart`,
`dtend`, rational minutes since day-0 midnight) and the uid stand for
their `strftime` renderings in the source dict; `vclass` is the source's
`"class"` key. -/
structure Event where
  uid : Int × Int
  dtstamp : Int
  dtstart : ℚ
  dtend : ℚ
  summary : String
  description : String
  location : String
  organizer_email : String
  organizer_name : String
  status : String
  valarms : List Valarm
  sequence : Nat
  transp : String
  vclass : String
  priority : Nat
  deriving DecidableEq, Repr

/-- `get_ics_uid`: `f"{date_obj.strftime('%Y%m%d')}-{hash(title)}@planlector.streamlit.app"`,
kept as the pair (calendar date of the timestamp, hash of the title); the
fixed host suffix and digit rendering carry no information. -/
def get_ics_uid (hashF : String → Int) (ts : ℚ) (title : String) : Int × Int :=
  (⌊ts / 1440⌋, hashF title)

/-- `add_event`: builds the event record and appends it to the list. The
`dtstamp` field is `datetime.now()` at emission, embedded as `clock`
applied to the index of the event being emitted. -/
def add_event (hashF : String → Int) (clock : Nat → Int) (events_list : List Event)
    (dt_start : ℚ) (minutes : ℚ) (summary description : String)
    (organizer_email organizer_name : String) (reminders_config : RemindersConfig)
    (location : String) (status : String) (is_review : Bool) : List Event :=
  let dt_end := dt_start + minutes
  let active_reminders :=
    if is_review then reminders_config.review else reminders_config.normal
  events_list ++ [{
    uid := get_ics_uid hashF dt_start summary
    dtstamp := clock events_list.length
    dtstart := dt_start
    dtend := dt_end
    summary := escape_ics_text summary
    description := escape_ics_text description
    location := escape_ics_text location
    organizer_email := organizer_email
    organizer_name := escape_ics_text organizer_name
    status := status
    valarms := create_valarm_blocks active_reminders
    sequence := 0
    transp := "OPAQUE"
    vclass := "PUBLIC"
    priority := if is_review then 3 else 5 }]

/-- The candidate-advancing loop of `schedule_book_review`:
`while review_date.weekday() not in reading_weekdays: review_date += timedelta(days=1)`.
The loop is bounded by the fuel; with any valid weekday in the set it
finds an eligible day within 7 steps (`next_reading_day_spec` below), so
fuel 7 reproduces the loop exactly; on an empty set the Python loop
diverges (the fuel-exhausted value is then never relied upon). -/
def next_reading_day : Nat → Nat → List Nat → Nat
  | 0, d, _ => d
  | n + 1, d, wds => if d % 7 ∈ wds then d else next_reading_day n (d + 1) wds

/-- `schedule_book_review`: advance to the next eligible reading weekday,
then emit exactly one review event at `start_time_review` of that day. -/
def schedule_book_review (hashF : String → Int) (clock : Nat → Int)
    (events_list : List Event) (review_date : Nat) (book_name : String)
    (book_hours : ℚ) (review_time_min : ℚ) (start_time_review : ℚ)
    (reading_weekdays : List Nat) (organizer_email organizer_name : String)
    (reminders_config : RemindersConfig) : List Event :=
  let rd := next_reading_day 7 review_date reading_weekdays
  let review_start_time : ℚ := (rd : ℚ) * 1440 + start_time_review
  add_event hashF clock events_list review_start_time review_time_min
    ("🔄 REVISIÓN COMPLETA: " ++ book_name)
    ("Sesión de consolidación y Active Recall\n\n" ++
      "📚 Libro completado: " ++ book_name ++ "\n" ++
      "⏱️ Tiempo total invertido: " ++ format_f2 book_hours ++ " horas\n" ++
      "🎯 Duración de revisión: " ++ format_int review_time_min ++ " minutos\n\n" ++
      "OBJETIVOS DE LA SESIÓN:\n" ++
      "✓ Active Recall completo del libro\n" ++
      "✓ Revisar todas las notas y anotaciones\n" ++
      "✓ Crear/actualizar mapa conceptual\n" ++
      "✓ Conectar con otros libros leídos\n" ++
      "✓ Elaborar resumen ejecutivo")
    organizer_email organizer_name reminders_config
    "Espacio de estudio tranquilo" "CONFIRMED" true

/-- A completed-book ledger row: `{"Libro": ..., "Horas": round(h, 2),
"Fecha de finalización": current_date.strftime("%Y-%m-%d")}`; the date is
kept as the day number. -/
structure CompletedBook where
  libro : String
  horas : ℚ
  fecha : Nat
  deriving DecidableEq, Repr

/-- The statistics dict. The empty-book-list branch of the source returns
a dict without the `total_days` key, hence the `Option`. -/
structure PlanStats where
  total_events : Nat
  books_completed_count : Nat
  total_book_hours : ℚ
  total_days : Option Nat
  deriving DecidableEq, Repr

/-- The mutable state of `create_reading_plan`'s main loop. -/
structure EngineState where
  events : List Event
  books_completed : List CompletedBook
  current_book_index : Nat
  current_book_remaining_min : ℚ
  deriving DecidableEq, Repr

/-- The configuration parameters of `create_reading_plan` (all but the
book list), bundled. `daily_time_total_minutes` is assigned unchanged to
`daily_time_books_min` in the source. -/
structure PlanConfig where
  start_date : Nat
  end_date : Nat
  daily_time_total_minutes : ℚ
  review_time_per_book_min : ℚ
  reading_speeds : List (String × ℚ)
  reading_weekdays : List Nat
  start_time_books : ℚ
  start_time_review : ℚ
  organizer_email : String
  organizer_name : String
  deriving DecidableEq, Repr

/-- The hardcoded `reminders_config` of `create_reading_plan`. -/
def plan_reminders : RemindersConfig :=
  ⟨[⟨5, "5 minutos antes - Prepara materiales"⟩],
    [⟨10, "10 minutos antes - Sesión de consolidación"⟩]⟩

/-- The state transformation of one pass through the body of the inner
session loop of `create_reading_plan` (lines 248–329): emit one reading
session, subtract, and run the book-completion logic. `brk = true` means
the body executed a `break`. -/
def session_step (hashF : String → Int) (clock : Nat → Int) (cfg : PlanConfig)
    (books : List Book) (current_date : Nat) (st : EngineState)
    (session_start_time remaining_session_time : ℚ)
    (h : st.current_book_index < books.length) :
    EngineState × ℚ × ℚ × Bool :=
  let current_book := books.get ⟨st.current_book_index, h⟩
  let book_name := current_book.title
  let book_hours := calculate_reading_time_hours current_book cfg.reading_speeds
  let time_to_dedicate := min remaining_session_time st.current_book_remaining_min
  if time_to_dedicate ≤ 0 then (st, session_start_time, remaining_session_time, true)
  else
    let events1 := add_event hashF clock st.events session_start_time time_to_dedicate
      ("📚 LECTURA: " ++ book_name)
      ("Sesión de lectura profunda\n\n" ++
        "📖 Libro: " ++ book_name ++ "\n" ++
        "⏳ Tiempo restante del libro: " ++ format_f0 st.current_book_remaining_min ++ " min\n" ++
        "⏱️ Duración sesión: " ++ format_f0 time_to_dedicate ++ " min")
      cfg.organizer_email cfg.organizer_name plan_reminders "Sala de estudio" "CONFIRMED" false
    let remaining1 := st.current_book_remaining_min - time_to_dedicate
    let session_rem1 := remaining_session_time - time_to_dedicate
    let session_start1 := session_start_time + time_to_dedicate
    if remaining1 ≤ 1 / 10 then
      let completed1 := st.books_completed ++ [⟨book_name, py_round2 book_hours, current_date⟩]
      let events2 := schedule_book_review hashF clock events1 (current_date + 1) book_name
        book_hours cfg.review_time_per_book_min cfg.start_time_review cfg.reading_weekdays
        cfg.organizer_email cfg.organizer_name plan_reminders
      let idx1 := st.current_book_index + 1
      if h2 : idx1 < books.length then
        let next_book := books.get ⟨idx1, h2⟩
        (⟨events2, completed1, idx1, calculate_reading_time_minutes next_book cfg.reading_speeds⟩,
          session_start1, session_rem1, false)
      else
        let events3 :=
          if 0 < session_rem1 then
            add_event hashF clock events2 session_start1 session_rem1
              "🎓 REVISIÓN GENERAL FINAL"
              ("Sesión de integración. ¡Todos los libros completados!\n" ++
                "Libros completados: " ++ toString completed1.length)
              cfg.organizer_email cfg.organizer_name plan_reminders "" "CONFIRMED" true
          else events2
        (⟨events3, completed1, idx1, remaining1⟩, session_start1, 0, true)
    else
      (⟨events1, st.books_completed, st.current_book_index, remaining1⟩,
        session_start1, session_rem1, false)

/-- The inner session loop:
`while remaining_session_time > 0 and current_book_index < len(book_schedule_list)`.
Each non-breaking iteration advances `current_book_index`, so the loop
runs at most `len(books) + 1` iterations; `day_loop` supplies fuel
`books.length + 2`, which therefore never runs out. -/
def session_loop (hashF : String → Int) (clock : Nat → Int) (cfg : PlanConfig)
    (books : List Book) (current_date : Nat) :
    Nat → EngineState → ℚ → ℚ → EngineState
  | 0, st, _, _ => st
  | fuel + 1, st, session_start_time, remaining_session_time =>
    if h : 0 < remaining_session_time ∧ st.current_book_index < books.length then
      let r := session_step hashF clock cfg books current_date st
        session_start_time remaining_session_time h.2
      if r.2.2.2 then r.1
      else session_loop hashF clock cfg books current_date fuel r.1 r.2.1 r.2.2.1
    else st

/-- The outer date loop: `while current_date <= end_date`, stepping one
day, running the session loop on reading weekdays, and breaking (after
the day advance) once every book is allocated. Returns the date at which
the loop stopped together with the final state. Fuel
`end_date + 2 - start_date` covers every iteration plus the final test. -/
def day_loop (hashF : String → Int) (clock : Nat → Int) (cfg : PlanConfig)
    (books : List Book) : Nat → Nat → EngineState → Nat × EngineState
  | 0, current_date, st => (current_date, st)
  | fuel + 1, current_date, st =>
    if current_date ≤ cfg.end_date then
      let st1 :=
        if current_date % 7 ∈ cfg.reading_weekdays then
          session_loop hashF clock cfg books current_date (books.length + 2) st
            ((current_date : ℚ) * 1440 + cfg.start_time_books) cfg.daily_time_total_minutes
        else st
      let next_date := current_date + 1
      if books.length ≤ st1.current_book_index then (next_date, st1)
      else day_loop hashF clock cfg books fuel next_date st1
    else (current_date, st)

/-- `create_reading_plan`: empty-list early return, else initialize the
state from the first book and run the day loop; package events, ledger
and statistics (`total_days = abs(start_date - current_date).days`). -/
def create_reading_plan (hashF : String → Int) (clock : Nat → Int)
    (book_schedule_list : List Book) (cfg : PlanConfig) :
    List Event × List CompletedBook × PlanStats :=
  match book_schedule_list with
  | [] => ([], [], ⟨0, 0, 0, none⟩)
  | b :: _ =>
    let total_book_hours_calc :=
      (book_schedule_list.map (fun bk => calculate_reading_time_hours bk cfg.reading_speeds)).sum
    let st0 : EngineState := ⟨[], [], 0, calculate_reading_time_minutes b cfg.reading_speeds⟩
    let r := day_loop hashF clock cfg book_schedule_list
      (cfg.end_date + 2 - cfg.start_date) cfg.start_date st0
    (r.2.events, r.2.books_completed,
      ⟨r.2.events.length, r.2.books_completed.length, total_book_hours_calc,
        some (((cfg.start_date : Int) - (r.1 : Int)).natAbs)⟩)

/-- Duration of an emitted event, as end minus start. -/
def event_duration (e : Event) : ℚ :=
  e.dtend - e.dtstart

/-- Reading-session events are exactly those whose summary is the escape
of `"📚 LECTURA: " ++ title`; review summaries start with 🔄 and the final
integration summary with 🎓, so the head character separates them. -/
def is_reading_event (e : Event) : Bool :=
  decide (e.summary.data.head? = some '📚')

/-- Total minutes of reading-session events attributed to a book title. -/
def allocated_minutes (book_title : String) (evs : List Event) : ℚ :=
  ((evs.filter
    (fun e => e.summary == escape_ics_text ("📚 LECTURA: " ++ book_title))).map
      event_duration).sum

/-- The day-loop invocation that `create_reading_plan` performs for a
non-empty book list (state seeded from the first book, fuel covering the
whole window): its first component is the date at which the outer loop
stopped, its second the final engine state. -/
def engine_run (hashF : String → Int) (clock : Nat → Int) (b : Book) (bs : List Book)
    (cfg : PlanConfig) : Nat × EngineState :=
  day_loop hashF clock cfg (b :: bs) (cfg.end_date + 2 - cfg.start_date) cfg.start_date
    ⟨[], [], 0, calculate_reading_time_minutes b cfg.reading_speeds⟩


/-- The reading-session summary of a book title, as emitted by the
session loop. -/
def reading_summary (name : String) : String :=
  "📚 LECTURA: " ++ name

/-- The review-event summary of a book title, as emitted by
`schedule_book_review`. -/
def review_summary (name : String) : String :=
  "🔄 REVISIÓN COMPLETA: " ++ name

/-- A concrete hash parameter (any fixed value works; Python's `hash` is
fixed within one session). -/
def hash0 : String → Int := fun _ => 0

/-- A concrete clock for `datetime.now()` stamps. -/
def clock0 : Nat → Int := fun _ => 0

/-- Concrete configuration: window day 0 .. day 10, 60 minutes budget per
day, 60-minute reviews, speed 15 min/page for category `X`, all seven
weekdays eligible, reading at 10:00 (600), review at 19:00 (1140). -/
def cexA_cfg : PlanConfig :=
  ⟨0, 10, 60, 60, [("X", 15)], [0, 1, 2, 3, 4, 5, 6], 600, 1140, "e", "n"⟩

/-- One 1-page category-`X` book: 15 required minutes. -/
def cexA_books : List Book := [⟨"B", 1, "X"⟩]

def cexA_ev0 : List Event :=
  add_event hash0 clock0 [] 600 15 ("📚 LECTURA: " ++ "B")
    ("Sesión de lectura profunda\n\n" ++ "📖 Libro: " ++ "B" ++ "\n" ++
      "⏳ Tiempo restante del libro: " ++ format_f0 15 ++ " min\n" ++
      "⏱️ Duración sesión: " ++ format_f0 15 ++ " min")
    "e" "n" plan_reminders "Sala de estudio" "CONFIRMED" false

def cexA_ev1 : List Event :=
  schedule_book_review hash0 clock0 cexA_ev0 1 "B" (1 / 4) 60 1140 [0, 1, 2, 3, 4, 5, 6]
    "e" "n" plan_reminders

def cexA_events : List Event :=
  add_event hash0 clock0 cexA_ev1 615 45 "🎓 REVISIÓN GENERAL FINAL"
    ("Sesión de integración. ¡Todos los libros completados!\n" ++ "Libros completados: " ++
      toString 1)
    "e" "n" plan_reminders "" "CONFIRMED" true

def cexA_final : EngineState := ⟨cexA_events, [⟨"B", py_round2 (1 / 4), 0⟩], 1, 0⟩

/-- Concrete configuration for the conservation counterexample: the one
category-`X` book needs `1 * 201/20 = 10.05` minutes; the daily budget is
10 minutes. -/
def cexC_cfg : PlanConfig :=
  ⟨0, 5, 10, 60, [("X", 201 / 20)], [0, 1, 2, 3, 4, 5, 6], 600, 1140, "e", "n"⟩

def cexC_books : List Book := [⟨"B", 1, "X"⟩]

def cexC_ev0 : List Event :=
  add_event hash0 clock0 [] 600 10 ("📚 LECTURA: " ++ "B")
    ("Sesión de lectura profunda\n\n" ++ "📖 Libro: " ++ "B" ++ "\n" ++
      "⏳ Tiempo restante del libro: " ++ format_f0 (201 / 20) ++ " min\n" ++
      "⏱️ Duración sesión: " ++ format_f0 10 ++ " min")
    "e" "n" plan_reminders "Sala de estudio" "CONFIRMED" false

def cexC_events : List Event :=
  schedule_book_review hash0 clock0 cexC_ev0 1 "B" (67 / 400) 60 1140 [0, 1, 2, 3, 4, 5, 6]
    "e" "n" plan_reminders

def cexC_final : EngineState := ⟨cexC_events, [⟨"B", py_round2 (67 / 400), 0⟩], 1, 1 / 20⟩

/-- The concrete scenario named by the spec's completion-threshold
property: `pages = 10`, 2.0 minutes/page (20 required minutes), a
15-minute daily budget, reading weekdays Monday–Saturday, window day 0
to day 30. -/
def cexB_cfg : PlanConfig :=
  ⟨0, 30, 15, 60, [("X", 2)], [0, 1, 2, 3, 4, 5], 600, 1140, "e", "n"⟩

def cexB_books : List Book := [⟨"B", 10, "X"⟩]

def cexB_ev0 : List Event :=
  add_event hash0 clock0 [] 600 15 ("📚 LECTURA: " ++ "B")
    ("Sesión de lectura profunda\n\n" ++ "📖 Libro: " ++ "B" ++ "\n" ++
      "⏳ Tiempo restante del libro: " ++ format_f0 20 ++ " min\n" ++
      "⏱️ Duración sesión: " ++ format_f0 15 ++ " min")
    "e" "n" plan_reminders "Sala de estudio" "CONFIRMED" false

def cexB_ev1 : List Event :=
  add_event hash0 clock0 cexB_ev0 2040 5 ("📚 LECTURA: " ++ "B")
    ("Sesión de lectura profunda\n\n" ++ "📖 Libro: " ++ "B" ++ "\n" ++
      "⏳ Tiempo restante del libro: " ++ format_f0 5 ++ " min\n" ++
      "⏱️ Duración sesión: " ++ format_f0 5 ++ " min")
    "e" "n" plan_reminders "Sala de estudio" "CONFIRMED" false

def cexB_ev2 : List Event :=
  schedule_book_review hash0 clock0 cexB_ev1 2 "B" (1 / 3) 60 1140 [0, 1, 2, 3, 4, 5]
    "e" "n" plan_reminders

def cexB_events : List Event :=
  add_event hash0 clock0 cexB_ev2 2045 10 "🎓 REVISIÓN GENERAL FINAL"
    ("Sesión de integración. ¡Todos los libros completados!\n" ++ "Libros completados: " ++
      toString 1)
    "e" "n" plan_reminders "" "CONFIRMED" true

def cexB_final : EngineState := ⟨cexB_events, [⟨"B", py_round2 (1 / 3), 1⟩], 1, 0⟩

/-- Invariant for the ordering/disjointness of reading-session events:
every reading event so far ends no later than `ub`, and the reading
events are pairwise chained (each ends no later than the next starts). -/
def reading_chain (evs : List Event) (ub : ℚ) : Prop :=
  (∀ e ∈ evs.filter is_reading_event, e.dtend ≤ ub) ∧
  (evs.filter is_reading_event).Pairwise (fun a b => a.dtend ≤ b.dtstart)

/-- The conservation invariant of the allocation loop: the ledger length
tracks the current book index; fully processed books have received their
required minutes up to the 0.1 completion tolerance; the current book has
received exactly its required minutes minus what remains; untouched books
have received nothing. -/
def alloc_inv (books : List Book) (speeds : List (String × ℚ)) (st : EngineState) : Prop :=
  st.books_completed.length = st.current_book_index ∧
  st.current_book_index ≤ books.length ∧
  ∀ (i : Nat) (hi : i < books.length),
    (i < st.current_book_index →
      calculate_reading_time_minutes (books.get ⟨i, hi⟩) speeds - 1 / 10 ≤
        allocated_minutes (books.get ⟨i, hi⟩).title st.events ∧
      allocated_minutes (books.get ⟨i, hi⟩).title st.events ≤
        calculate_reading_time_minutes (books.get ⟨i, hi⟩) speeds) ∧
    (i = st.current_book_index →
      allocated_minutes (books.get ⟨i, hi⟩).title st.events =
        calculate_reading_time_minutes (books.get ⟨i, hi⟩) speeds -
          st.current_book_remaining_min ∧
      0 ≤ st.current_book_remaining_min) ∧
    (st.current_book_index < i →
      allocated_minutes (books.get ⟨i, hi⟩).title st.events = 0)

/-- Erase the wall-clock creation stamp of an event. -/
def drop_stamp (e : Event) : Event :=
  { e with dtstamp := 0 }

/-- Two engine states that agree everywhere except possibly in the
`dtstamp` fields of their events. -/
def eq_mod_stamp (st₁ st₂ : EngineState) : Prop :=
  st₁.events.map drop_stamp = st₂.events.map drop_stamp ∧
  st₁.books_completed = st₂.books_completed ∧
  st₁.current_book_index = st₂.current_book_index ∧
  st₁.current_book_remaining_min = st₂.current_book_remaining_min

/-- Uid invariant: each emitted event's uid is determined by the calendar
date of its start timestamp together with the (fixed) hash of its raw
summary — recovered from the stored, escaped summary by the inverse
unescape. -/
def uid_ok (hashF : String → Int) (evs : List Event) : Prop :=
  ∀ e ∈ evs, e.uid = (⌊e.dtstart / 1440⌋, hashF (unescape_ics_text e.summary))

theorem replace_char_append (target : Char) (repl : List Char) (a b : List Char) :
    replace_char target repl (a ++ b) =
      replace_char target repl a ++ replace_char target repl b := by
  simp [replace_char]

theorem escape_chars_append (a b : List Char) :
    escape_chars (a ++ b) = escape_chars a ++ escape_chars b := by
  simp [escape_chars, replace_char_append]

theorem escape_chars_singleton (c : Char) : escape_chars [c] = escChar c := by
  by_cases h1 : c = '\\'
  · subst h1; decide
  · by_cases h2 : c = ','
    · subst h2; decide
    · by_cases h3 : c = ';'
      · subst h3; decide
      · by_cases h4 : c = '\n'
        · subst h4; decide
        · simp [escape_chars, replace_char, escChar, h1, h2, h3, h4]

theorem escape_chars_eq_bind (s : List Char) : escape_chars s = s.flatMap escChar := by
  induction s with
  | nil => decide
  | cons c t ih =>
    have h : c :: t = [c] ++ t := rfl
    rw [h, escape_chars_append, escape_chars_singleton, List.flatMap_append, ih]
    congr 1
    simp

theorem unescape_chars_cons_of_ne (c : Char) (l : List Char) (h : c ≠ '\\') :
    unescape_chars (c :: l) = c :: unescape_chars l := by
  cases l with
  | nil => rfl
  | cons d r => simp [unescape_chars, h]

theorem unescape_escape_chars (s : List Char) :
    unescape_chars (escape_chars s) = s := by
  induction s with
  | nil => decide
  | cons c t ih =>
    rw [escape_chars_eq_bind, List.flatMap_cons, ← escape_chars_eq_bind]
    by_cases h1 : c = '\\'
    · subst h1; simpa [escChar, unescape_chars] using ih
    · by_cases h2 : c = ','
      · subst h2; simpa [escChar, unescape_chars] using ih
      · by_cases h3 : c = ';'
        · subst h3; simpa [escChar, unescape_chars] using ih
        · by_cases h4 : c = '\n'
          · subst h4; simpa [escChar, unescape_chars] using ih
          · rw [show escChar c = [c] from by simp [escChar, h1, h2, h3, h4]]
            rw [List.singleton_append, unescape_chars_cons_of_ne c _ h1]
            exact congrArg _ ih

theorem unescape_escape_ics (s : String) :
    unescape_ics_text (escape_ics_text s) = s := by
  show (⟨unescape_chars (escape_chars s.data)⟩ : String) = s
  rw [unescape_escape_chars]

theorem escape_ics_injective (a b : String) (h : escape_ics_text a = escape_ics_text b) :
    a = b := by
  have ha := unescape_escape_ics a
  have hb := unescape_escape_ics b
  rw [← ha, ← hb, h]

theorem next_reading_day_spec (n : Nat) :
    ∀ (d : Nat) (wds : List Nat), (∃ i, i < n ∧ (d + i) % 7 ∈ wds) →
      d ≤ next_reading_day n d wds ∧
      (next_reading_day n d wds) % 7 ∈ wds ∧
      ∀ x, d ≤ x → x % 7 ∈ wds → next_reading_day n d wds ≤ x := by
  induction n with
  | zero => intro d wds ⟨i, hi, _⟩; omega
  | succ n ih =>
    intro d wds ⟨i, hi, hmem⟩
    by_cases hd : d % 7 ∈ wds
    · have hval : next_reading_day (n + 1) d wds = d := by
        simp [next_reading_day, hd]
      rw [hval]
      exact ⟨le_refl d, hd, fun x hx _ => hx⟩
    · have hi0 : i ≠ 0 := by
        intro h0
        exact hd (by simpa [h0] using hmem)
      obtain ⟨j, rfl⟩ : ∃ j, i = j + 1 := ⟨i - 1, by omega⟩
      have hstep : (d + 1 + j) % 7 ∈ wds := by
        have : d + (j + 1) = d + 1 + j := by omega
        rwa [this] at hmem
      obtain ⟨h1, h2, h3⟩ := ih (d + 1) wds ⟨j, by omega, hstep⟩
      refine ⟨?_, ?_, ?_⟩
      · simp only [next_reading_day, if_neg hd]
        omega
      · simpa [next_reading_day, if_neg hd] using h2
      · intro x hx hxm
        simp only [next_reading_day, if_neg hd]
        have hxd : x ≠ d := by
          intro h0
          exact hd (h0 ▸ hxm)
        exact h3 x (by omega) hxm

theorem exists_eligible_within (d : Nat) (wds : List Nat) (w : Nat) (hw : w ∈ wds)
    (hw7 : w < 7) : ∃ i, i < 7 ∧ (d + i) % 7 ∈ wds := by
  refine ⟨(w + 7 - d % 7) % 7, by omega, ?_⟩
  have : (d + (w + 7 - d % 7) % 7) % 7 = w := by omega
  rwa [this]

/-- C7: for every candidate date and every reading-weekday set containing
a valid weekday, the advancing loop of `schedule_book_review` terminates
(here: the bounded search it embeds to is exact — it reaches an eligible
day, the least one at or after the candidate), no advancement happens
when the candidate already qualifies, and the function appends exactly
one event starting on that day at the configured review start time. -/
theorem claim7_review_scheduler (hashF : String → Int) (clock : Nat → Int)
    (evs : List Event) (d : Nat) (bn : String) (bh rt strt : ℚ)
    (wds : List Nat) (oe oname : String) (rc : RemindersConfig)
    (h : ∃ w ∈ wds, w < 7) :
    ∃ ev, schedule_book_review hashF clock evs d bn bh rt strt wds oe oname rc = evs ++ [ev] ∧
      ev.dtstart = ((next_reading_day 7 d wds : Nat) : ℚ) * 1440 + strt ∧
      d ≤ next_reading_day 7 d wds ∧
      (next_reading_day 7 d wds) % 7 ∈ wds ∧
      (∀ x, d ≤ x → x % 7 ∈ wds → next_reading_day 7 d wds ≤ x) ∧
      (d % 7 ∈ wds → next_reading_day 7 d wds = d) := by
  obtain ⟨w, hw, hw7⟩ := h
  obtain ⟨h1, h2, h3⟩ := next_reading_day_spec 7 d wds (exists_eligible_within d wds w hw hw7)
  refine ⟨_, rfl, rfl, h1, h2, h3, ?_⟩
  intro hd
  exact le_antisymm (h3 d (le_refl d) hd) h1

theorem claim7_witness :
    (∃ w ∈ [2], w < 7) ∧
    ∃ ev, schedule_book_review (fun _ => 0) (fun _ => 0) [] 0 "B" 1 60 1140 [2] "e" "n" ⟨[], []⟩ =
        [] ++ [ev] ∧
      ev.dtstart = ((next_reading_day 7 0 [2] : Nat) : ℚ) * 1440 + 1140 ∧
      0 ≤ next_reading_day 7 0 [2] ∧
      (next_reading_day 7 0 [2]) % 7 ∈ [2] ∧
      (∀ x, 0 ≤ x → x % 7 ∈ [2] → next_reading_day 7 0 [2] ≤ x) ∧
      (0 % 7 ∈ [2] → next_reading_day 7 0 [2] = 0) :=
  ⟨by decide,
    claim7_review_scheduler (fun _ => 0) (fun _ => 0) [] 0 "B" 1 60 1140 [2] "e" "n" ⟨[], []⟩
      (by decide)⟩

/-- C8: an empty book list returns immediately: empty event list, empty
ledger, and a statistics dict with `total_events = 0`,
`books_completed_count = 0`, `total_book_hours = 0` (and no `total_days`
key); the date loop is never entered — the result is this constant. -/
theorem claim8_empty_input (hashF : String → Int) (clock : Nat → Int) (cfg : PlanConfig) :
    create_reading_plan hashF clock [] cfg = ([], [], ⟨0, 0, 0, none⟩) :=
  rfl

/-- C9: `escape_ics_text` is exactly the per-character substitution that
backslash-escapes the four characters backslash, comma, semicolon and
newline (`escChar`; the chained replaces with backslash first collapse to
it), and the escaping is inverted exactly by the spec's unescape for
every input string. -/
theorem claim9_escape_roundtrip (s : String) :
    (escape_ics_text s).data = s.data.flatMap escChar ∧
    unescape_ics_text (escape_ics_text s) = s :=
  ⟨escape_chars_eq_bind s.data, unescape_escape_ics s⟩

theorem day_loop_no_weekdays (hashF : String → Int) (clock : Nat → Int)
    (cfg : PlanConfig) (books : List Book) (hw : cfg.reading_weekdays = []) :
    ∀ (fuel d : Nat) (st : EngineState), st.current_book_index < books.length →
      cfg.end_date + 1 ≤ d + fuel →
      day_loop hashF clock cfg books fuel d st = (max d (cfg.end_date + 1), st) := by
  intro fuel
  induction fuel with
  | zero =>
    intro d st _ hle
    simp only [day_loop]
    congr 1
    omega
  | succ fuel ih =>
    intro d st hidx hle
    by_cases hd : d ≤ cfg.end_date
    · have hmem : ¬ d % 7 ∈ cfg.reading_weekdays := by simp [hw]
      simp only [day_loop, if_pos hd, if_neg hmem]
      rw [if_neg (by omega : ¬ books.length ≤ st.current_book_index)]
      rw [ih (d + 1) st hidx (by omega)]
      congr 1
      omega
    · simp only [day_loop, if_neg hd]
      congr 1
      omega

/-- C4, counterexample: the claim asserts that `create_reading_plan`,
called with a non-empty book list and an empty reading-weekday set,
rejects the configuration and surfaces a configuration error. It does
not: the engine has no validation and no error channel (the `st.error`
guard lives in the Streamlit UI layer, before the engine is invoked);
at this concrete input it returns an ordinary successful result — the
same shape a valid run returns — with an empty event list and a
statistics dict spanning the whole window. -/
theorem claim4_counterexample :
    create_reading_plan (fun _ => 0) (fun _ => 0) [⟨"B", 5, "X"⟩]
        ⟨0, 3, 60, 30, [("X", 2)], [], 600, 1140, "e", "n"⟩ =
      ([], [], ⟨0, 0, 1 / 6, some 4⟩) := by
  simp only [create_reading_plan]
  rw [day_loop_no_weekdays _ _ _ _ rfl _ _ _ (by simp) (by decide)]
  norm_num [calculate_reading_time_hours, calculate_reading_time_minutes, dict_get]

/-- C4, amended: when `create_reading_plan` is called with a non-empty
book list and an empty reading-weekday set, it never invokes
`schedule_book_review` (no day qualifies as a reading day, so no event of
any kind is emitted and no book completes) and it terminates normally —
not by rejection: it returns an ordinary result with empty events and
ledger, zero counts, the full-workload hour total, and `total_days`
spanning the whole `[start_date, end_date]` window. The
configuration-error rejection the spec requires happens in the UI caller
layer before the engine is invoked, not in the engine. -/
theorem claim4_amended (hashF : String → Int) (clock : Nat → Int)
    (b : Book) (bs : List Book) (cfg : PlanConfig)
    (hw : cfg.reading_weekdays = []) :
    create_reading_plan hashF clock (b :: bs) cfg =
      ([], [],
        ⟨0, 0, ((b :: bs).map (fun bk => calculate_reading_time_hours bk cfg.reading_speeds)).sum,
          some (max cfg.start_date (cfg.end_date + 1) - cfg.start_date)⟩) := by
  simp only [create_reading_plan]
  rw [day_loop_no_weekdays hashF clock cfg (b :: bs) hw
    (cfg.end_date + 2 - cfg.start_date) cfg.start_date _ (by simp) (by omega)]
  simp
  omega

theorem claim4_witness :
    ((⟨0, 3, 60, 30, [("X", 2)], [], 600, 1140, "e", "n"⟩ : PlanConfig).reading_weekdays = []) ∧
    create_reading_plan (fun _ => 1) (fun n => n) [⟨"C", 6, "X"⟩]
        ⟨0, 3, 60, 30, [("X", 2)], [], 600, 1140, "e", "n"⟩ =
      ([], [],
        ⟨0, 0,
          (([⟨"C", 6, "X"⟩] : List Book).map
            (fun bk => calculate_reading_time_hours bk [("X", 2)])).sum,
          some (max 0 (3 + 1) - 0)⟩) :=
  ⟨rfl, claim4_amended (fun _ => 1) (fun n => n) ⟨"C", 6, "X"⟩ []
    ⟨0, 3, 60, 30, [("X", 2)], [], 600, 1140, "e", "n"⟩ rfl⟩

theorem session_loop_stop (hashF : String → Int) (clock : Nat → Int) (cfg : PlanConfig)
    (books : List Book) (current_date : Nat) (fuel : Nat) (st : EngineState) (s rem : ℚ)
    (h : ¬(0 < rem ∧ st.current_book_index < books.length)) :
    session_loop hashF clock cfg books current_date fuel st s rem = st := by
  cases fuel with
  | zero => rfl
  | succ fuel => simp only [session_loop, dif_neg h]

theorem session_loop_go (hashF : String → Int) (clock : Nat → Int) (cfg : PlanConfig)
    (books : List Book) (current_date : Nat) (fuel : Nat) (st st' : EngineState)
    (s rem s' rem' : ℚ) (brk : Bool) (h1 : 0 < rem) (h2 : st.current_book_index < books.length)
    (hstep : session_step hashF clock cfg books current_date st s rem h2 = (st', s', rem', brk)) :
    session_loop hashF clock cfg books current_date (fuel + 1) st s rem =
      if brk then st'
      else session_loop hashF clock cfg books current_date fuel st' s' rem' := by
  simp only [session_loop, dif_pos (And.intro h1 h2)]
  rw [show session_step hashF clock cfg books current_date st s rem (And.intro h1 h2).2 =
    (st', s', rem', brk) from hstep]

theorem day_loop_go_brk (hashF : String → Int) (clock : Nat → Int) (cfg : PlanConfig)
    (books : List Book) (fuel d : Nat) (st st1 : EngineState)
    (hle : d ≤ cfg.end_date) (hwd : d % 7 ∈ cfg.reading_weekdays)
    (hsess : session_loop hashF clock cfg books d (books.length + 2) st
      ((d : ℚ) * 1440 + cfg.start_time_books) cfg.daily_time_total_minutes = st1)
    (hidx : books.length ≤ st1.current_book_index) :
    day_loop hashF clock cfg books (fuel + 1) d st = (d + 1, st1) := by
  simp only [day_loop, if_pos hle, if_pos hwd, hsess, if_pos hidx]

theorem day_loop_go_cont (hashF : String → Int) (clock : Nat → Int) (cfg : PlanConfig)
    (books : List Book) (fuel d : Nat) (st st1 : EngineState)
    (hle : d ≤ cfg.end_date) (hwd : d % 7 ∈ cfg.reading_weekdays)
    (hsess : session_loop hashF clock cfg books d (books.length + 2) st
      ((d : ℚ) * 1440 + cfg.start_time_books) cfg.daily_time_total_minutes = st1)
    (hidx : ¬ books.length ≤ st1.current_book_index) :
    day_loop hashF clock cfg books (fuel + 1) d st =
      day_loop hashF clock cfg books fuel (d + 1) st1 := by
  simp only [day_loop, if_pos hle, if_pos hwd, hsess, if_neg hidx]

theorem day_loop_skipday (hashF : String → Int) (clock : Nat → Int) (cfg : PlanConfig)
    (books : List Book) (fuel d : Nat) (st : EngineState)
    (hle : d ≤ cfg.end_date) (hwd : ¬ d % 7 ∈ cfg.reading_weekdays)
    (hidx : ¬ books.length ≤ st.current_book_index) :
    day_loop hashF clock cfg books (fuel + 1) d st =
      day_loop hashF clock cfg books fuel (d + 1) st := by
  simp only [day_loop, if_pos hle, if_neg hwd, if_neg hidx]

theorem create_reading_plan_run (hashF : String → Int) (clock : Nat → Int)
    (b : Book) (bs : List Book) (cfg : PlanConfig) (stop : Nat) (stF : EngineState)
    (hday : day_loop hashF clock cfg (b :: bs) (cfg.end_date + 2 - cfg.start_date) cfg.start_date
      ⟨[], [], 0, calculate_reading_time_minutes b cfg.reading_speeds⟩ = (stop, stF)) :
    create_reading_plan hashF clock (b :: bs) cfg =
      (stF.events, stF.books_completed,
        ⟨stF.events.length, stF.books_completed.length,
          ((b :: bs).map (fun bk => calculate_reading_time_hours bk cfg.reading_speeds)).sum,
          some (((cfg.start_date : Int) - (stop : Int)).natAbs)⟩) := by
  simp only [create_reading_plan, hday]

theorem escape_chars_head (c : Char) (l : List Char) (h : escChar c = [c]) :
    (escape_chars (c :: l)).head? = some c := by
  rw [escape_chars_eq_bind, List.flatMap_cons, h]
  rfl

theorem escape_head_of_prefix (p name : String) (c : Char) (t : List Char)
    (hp : p.data = c :: t) (hc : escChar c = [c]) :
    (escape_ics_text (p ++ name)).data.head? = some c := by
  show (escape_chars (p ++ name).data).head? = some c
  rw [String.data_append, hp]
  exact escape_chars_head c (t ++ name.data) hc

theorem string_ext (a b : String) (h : a.data = b.data) : a = b := by
  cases a
  cases b
  exact congrArg String.mk h

theorem string_append_left_cancel (p a b : String) (h : p ++ a = p ++ b) : a = b := by
  apply string_ext
  have hd : (p ++ a).data = (p ++ b).data := by rw [h]
  rw [String.data_append, String.data_append] at hd
  exact List.append_cancel_left hd

theorem append_ne_of_head_ne (p q a b : String) (c d : Char) (t u : List Char)
    (hp : p.data = c :: t) (hq : q.data = d :: u) (hcd : c ≠ d) : p ++ a ≠ q ++ b := by
  intro h
  have hd : (p ++ a).data = (q ++ b).data := by rw [h]
  rw [String.data_append, String.data_append, hp, hq] at hd
  exact hcd (by injection hd)

theorem ne_of_head_ne_append (p q b : String) (c d : Char) (t u : List Char)
    (hp : p.data = c :: t) (hq : q.data = d :: u) (hcd : c ≠ d) : p ≠ q ++ b := by
  intro h
  have hd : p.data = (q ++ b).data := by rw [h]
  rw [String.data_append, hp, hq] at hd
  exact hcd (by injection hd)

theorem reading_summary_ne_review (x y : String) :
    reading_summary x ≠ review_summary y :=
  append_ne_of_head_ne _ _ x y '📚' '🔄' (" LECTURA: ".data) (" REVISIÓN COMPLETA: ".data)
    (by decide) (by decide) (by decide)

theorem final_summary_ne_reading (x : String) :
    "🎓 REVISIÓN GENERAL FINAL" ≠ reading_summary x :=
  ne_of_head_ne_append _ _ x '🎓' '📚' (" REVISIÓN GENERAL FINAL".data) (" LECTURA: ".data)
    (by decide) (by decide) (by decide)

theorem reading_summary_inj (x y : String) (h : reading_summary x = reading_summary y) :
    x = y :=
  string_append_left_cancel _ x y h

theorem escape_reading_head (name : String) :
    (escape_ics_text (reading_summary name)).data.head? = some '📚' :=
  escape_head_of_prefix _ name '📚' (" LECTURA: ".data) (by decide) (by decide)

theorem escape_review_head (name : String) :
    (escape_ics_text (review_summary name)).data.head? = some '🔄' :=
  escape_head_of_prefix _ name '🔄' (" REVISIÓN COMPLETA: ".data) (by decide) (by decide)

theorem escape_final_head :
    (escape_ics_text "🎓 REVISIÓN GENERAL FINAL").data.head? = some '🎓' := by
  decide

theorem is_reading_event_escape_reading (name : String) (e : Event)
    (h : e.summary = escape_ics_text (reading_summary name)) :
    is_reading_event e = true := by
  simp only [is_reading_event, h, escape_reading_head, decide_eq_true_eq]

theorem is_reading_event_escape_review (name : String) (e : Event)
    (h : e.summary = escape_ics_text (review_summary name)) :
    is_reading_event e = false := by
  simp only [is_reading_event, h, escape_review_head]
  decide

theorem is_reading_event_escape_final (e : Event)
    (h : e.summary = escape_ics_text "🎓 REVISIÓN GENERAL FINAL") :
    is_reading_event e = false := by
  simp only [is_reading_event, h, escape_final_head]
  decide

/-- Full evaluation of the engine on the scenario: the 15-minute book is
read 10:00–10:15 of day 0 and completes; its review is scheduled for day
1 at 19:00; the remaining 45 session minutes become the final integration
event at 10:15 of day 0, appended after the review event. -/
theorem cexA_day_loop : day_loop hash0 clock0 cexA_cfg cexA_books 12 0 ⟨[], [], 0, 15⟩ =
    (1, cexA_final) := by
  have hstep : session_step hash0 clock0 cexA_cfg cexA_books 0 ⟨[], [], 0, 15⟩
      (((0 : Nat) : ℚ) * 1440 + cexA_cfg.start_time_books) cexA_cfg.daily_time_total_minutes
      (by decide) = (cexA_final, 615, 0, true) := by
    conv_lhs => norm_num [session_step, cexA_cfg, cexA_books,
      calculate_reading_time_minutes, calculate_reading_time_hours, dict_get]
    rfl
  have hsess := session_loop_go hash0 clock0 cexA_cfg cexA_books 0 (cexA_books.length + 1)
    ⟨[], [], 0, 15⟩ cexA_final (((0 : Nat) : ℚ) * 1440 + cexA_cfg.start_time_books)
    cexA_cfg.daily_time_total_minutes 615 0 true (by norm_num [cexA_cfg]) (by decide) hstep
  rw [if_pos rfl] at hsess
  exact day_loop_go_brk hash0 clock0 cexA_cfg cexA_books 11 0 ⟨[], [], 0, 15⟩ cexA_final
    (by norm_num [cexA_cfg]) (by decide) hsess (by decide)

theorem cexA_engine_run : engine_run hash0 clock0 ⟨"B", 1, "X"⟩ [] cexA_cfg =
    (1, cexA_final) := by
  show day_loop hash0 clock0 cexA_cfg ([⟨"B", 1, "X"⟩] : List Book) (cexA_cfg.end_date + 2 -
    cexA_cfg.start_date) cexA_cfg.start_date
    ⟨[], [], 0, calculate_reading_time_minutes ⟨"B", 1, "X"⟩ cexA_cfg.reading_speeds⟩ = _
  rw [show calculate_reading_time_minutes ⟨"B", 1, "X"⟩ cexA_cfg.reading_speeds = (15 : ℚ)
    from by norm_num [cexA_cfg, calculate_reading_time_minutes, dict_get]]
  exact cexA_day_loop

theorem cexA_run : create_reading_plan hash0 clock0 cexA_books cexA_cfg =
    (cexA_events, [⟨"B", py_round2 (1 / 4), 0⟩], ⟨3, 1, 1 / 4, some 1⟩) := by
  have hrun := create_reading_plan_run hash0 clock0 ⟨"B", 1, "X"⟩ [] cexA_cfg 1 cexA_final
    cexA_engine_run
  rw [show cexA_books = [(⟨"B", 1, "X"⟩ : Book)] from rfl, hrun]
  norm_num [cexA_final, cexA_events, cexA_ev1, cexA_ev0, add_event, schedule_book_review,
    cexA_cfg, calculate_reading_time_hours, calculate_reading_time_minutes, dict_get]

theorem cexA_dtstarts :
    (create_reading_plan hash0 clock0 cexA_books cexA_cfg).1.map (fun e => e.dtstart) =
      [600, 2580, 615] := by
  rw [cexA_run]
  show cexA_events.map (fun e => e.dtstart) = _
  simp only [cexA_events, cexA_ev1, cexA_ev0, add_event, schedule_book_review, next_reading_day]
  norm_num

/-- C2, counterexample: the claim asserts the returned event list is in
non-decreasing start-time order, review events included. At this input
the 15-minute book completes mid-day 0, the review event (start: day 1,
19:00 = 2580) is appended third-from-last, and the final integration
event appended after it starts back on day 0 at 10:15 (615 < 2580): the
start times are [600, 2580, 615], not non-decreasing. -/
theorem claim2_counterexample :
    (create_reading_plan hash0 clock0 cexA_books cexA_cfg).1.map (fun e => e.dtstart) =
      [600, 2580, 615] ∧
    ¬ List.Chain' (· ≤ ·)
      ((create_reading_plan hash0 clock0 cexA_books cexA_cfg).1.map (fun e => e.dtstart)) := by
  refine ⟨cexA_dtstarts, ?_⟩
  rw [cexA_dtstarts]
  norm_num [List.chain'_cons]

/-- Evaluation of the engine on the conservation-counterexample scenario:
after the single 10-minute session the book has `0.05 ≤ 0.1` minutes
left, so it completes (with residue) on day 0, and one review event is
scheduled for day 1. -/
theorem cexC_run : create_reading_plan hash0 clock0 cexC_books cexC_cfg =
    (cexC_events, [⟨"B", py_round2 (67 / 400), 0⟩], ⟨2, 1, 67 / 400, some 1⟩) := by
  have hstep : session_step hash0 clock0 cexC_cfg cexC_books 0 ⟨[], [], 0, 201 / 20⟩
      (((0 : Nat) : ℚ) * 1440 + cexC_cfg.start_time_books) cexC_cfg.daily_time_total_minutes
      (by decide) = (cexC_final, 610, 0, true) := by
    conv_lhs => norm_num [session_step, cexC_cfg, cexC_books,
      calculate_reading_time_minutes, calculate_reading_time_hours, dict_get]
    rfl
  have hsess := session_loop_go hash0 clock0 cexC_cfg cexC_books 0 (cexC_books.length + 1)
    ⟨[], [], 0, 201 / 20⟩ cexC_final (((0 : Nat) : ℚ) * 1440 + cexC_cfg.start_time_books)
    cexC_cfg.daily_time_total_minutes 610 0 true (by norm_num [cexC_cfg]) (by decide) hstep
  rw [if_pos rfl] at hsess
  have hday := day_loop_go_brk hash0 clock0 cexC_cfg cexC_books 6 0 ⟨[], [], 0, 201 / 20⟩
    cexC_final (by norm_num [cexC_cfg]) (by decide) hsess (by decide)
  have hrun := create_reading_plan_run hash0 clock0 ⟨"B", 1, "X"⟩ [] cexC_cfg 1 cexC_final
    (by rw [show calculate_reading_time_minutes ⟨"B", 1, "X"⟩ cexC_cfg.reading_speeds =
          (201 / 20 : ℚ)
        from by norm_num [cexC_cfg, calculate_reading_time_minutes, dict_get]]
        exact hday)
  rw [show cexC_books = [(⟨"B", 1, "X"⟩ : Book)] from rfl, hrun]
  norm_num [cexC_final, cexC_events, cexC_ev0, add_event, schedule_book_review,
    cexC_cfg, calculate_reading_time_hours, calculate_reading_time_minutes, dict_get]

theorem escape_review_ne_reading (x y : String) :
    escape_ics_text ("🔄 REVISIÓN COMPLETA: " ++ x) ≠
      escape_ics_text ("📚 LECTURA: " ++ y) := by
  intro h
  exact reading_summary_ne_review y x (escape_ics_injective _ _ h).symm

theorem escape_final_ne_reading (y : String) :
    escape_ics_text "🎓 REVISIÓN GENERAL FINAL" ≠ escape_ics_text ("📚 LECTURA: " ++ y) := by
  intro h
  exact final_summary_ne_reading y (escape_ics_injective _ _ h)

theorem cexC_allocated :
    allocated_minutes "B" (create_reading_plan hash0 clock0 cexC_books cexC_cfg).1 = 10 := by
  rw [cexC_run]
  show allocated_minutes "B" cexC_events = 10
  simp only [cexC_events, cexC_ev0, add_event, schedule_book_review, allocated_minutes,
    next_reading_day]
  norm_num [List.filter_cons, List.filter_nil, beq_self_eq_true,
    if_neg (escape_review_ne_reading "B" "B"), event_duration]

/-- C1, counterexample: the claim asserts exact conservation — for every
book that completes within the window, the summed durations of its
reading sessions equal `calculate_reading_time_minutes`. Here the single
book requires 10.05 minutes, the window is ample and the book completes
(the ledger holds all books), yet only 10 minutes of sessions were
emitted: the 0.1-minute completion tolerance discards the 0.05-minute
residue, so the sums differ. -/
theorem claim1_counterexample :
    (create_reading_plan hash0 clock0 cexC_books cexC_cfg).2.1.length = cexC_books.length ∧
    allocated_minutes "B" (create_reading_plan hash0 clock0 cexC_books cexC_cfg).1 = 10 ∧
    calculate_reading_time_minutes ⟨"B", 1, "X"⟩ cexC_cfg.reading_speeds = 201 / 20 ∧
    (10 : ℚ) ≠ 201 / 20 := by
  refine ⟨?_, cexC_allocated, ?_, by norm_num⟩
  · rw [cexC_run]
    rfl
  · norm_num [cexC_cfg, calculate_reading_time_minutes, dict_get]

theorem escape_reading_head_lit (name : String) :
    (escape_ics_text ("📚 LECTURA: " ++ name)).data.head? = some '📚' :=
  escape_head_of_prefix _ name '📚' (" LECTURA: ".data) (by decide) (by decide)

theorem escape_review_head_lit (name : String) :
    (escape_ics_text ("🔄 REVISIÓN COMPLETA: " ++ name)).data.head? = some '🔄' :=
  escape_head_of_prefix _ name '🔄' (" REVISIÓN COMPLETA: ".data) (by decide) (by decide)

/-- Evaluation of the engine on the threshold scenario: day 0 session of
15 minutes (5 remain), day 1 session of 5 minutes completes the book on
the second reading day; one review is scheduled for day 2 at 19:00 and
the leftover 10 minutes of day 1 become the final integration event. -/
theorem cexB_run : create_reading_plan hash0 clock0 cexB_books cexB_cfg =
    (cexB_events, [⟨"B", py_round2 (1 / 3), 1⟩], ⟨4, 1, 1 / 3, some 2⟩) := by
  have hstep0 : session_step hash0 clock0 cexB_cfg cexB_books 0 ⟨[], [], 0, 20⟩
      (((0 : Nat) : ℚ) * 1440 + cexB_cfg.start_time_books) cexB_cfg.daily_time_total_minutes
      (by decide) = (⟨cexB_ev0, [], 0, 5⟩, 615, 0, false) := by
    conv_lhs => norm_num [session_step, cexB_cfg, cexB_books,
      calculate_reading_time_minutes, calculate_reading_time_hours, dict_get]
    rfl
  have hsess0 := session_loop_go hash0 clock0 cexB_cfg cexB_books 0 (cexB_books.length + 1)
    ⟨[], [], 0, 20⟩ ⟨cexB_ev0, [], 0, 5⟩ (((0 : Nat) : ℚ) * 1440 + cexB_cfg.start_time_books)
    cexB_cfg.daily_time_total_minutes 615 0 false (by norm_num [cexB_cfg]) (by decide) hstep0
  rw [if_neg (by decide), session_loop_stop hash0 clock0 cexB_cfg cexB_books 0
    (cexB_books.length + 1) ⟨cexB_ev0, [], 0, 5⟩ 615 0 (by norm_num)] at hsess0
  have hday0 := day_loop_go_cont hash0 clock0 cexB_cfg cexB_books 31 0 ⟨[], [], 0, 20⟩
    ⟨cexB_ev0, [], 0, 5⟩ (by norm_num [cexB_cfg]) (by decide) hsess0 (by decide)
  have hstep1 : session_step hash0 clock0 cexB_cfg cexB_books 1 ⟨cexB_ev0, [], 0, 5⟩
      (((1 : Nat) : ℚ) * 1440 + cexB_cfg.start_time_books) cexB_cfg.daily_time_total_minutes
      (by decide) = (cexB_final, 2045, 0, true) := by
    conv_lhs => norm_num [session_step, cexB_cfg, cexB_books,
      calculate_reading_time_minutes, calculate_reading_time_hours, dict_get]
    rfl
  have hsess1 := session_loop_go hash0 clock0 cexB_cfg cexB_books 1 (cexB_books.length + 1)
    ⟨cexB_ev0, [], 0, 5⟩ cexB_final (((1 : Nat) : ℚ) * 1440 + cexB_cfg.start_time_books)
    cexB_cfg.daily_time_total_minutes 2045 0 true (by norm_num [cexB_cfg]) (by decide) hstep1
  rw [if_pos rfl] at hsess1
  have hday1 := day_loop_go_brk hash0 clock0 cexB_cfg cexB_books 30 1 ⟨cexB_ev0, [], 0, 5⟩
    cexB_final (by norm_num [cexB_cfg]) (by decide) hsess1 (by decide)
  rw [hday1] at hday0
  have hrun := create_reading_plan_run hash0 clock0 ⟨"B", 10, "X"⟩ [] cexB_cfg 2 cexB_final
    (by rw [show calculate_reading_time_minutes ⟨"B", 10, "X"⟩ cexB_cfg.reading_speeds = (20 : ℚ)
        from by norm_num [cexB_cfg, calculate_reading_time_minutes, dict_get]]
        exact hday0)
  rw [show cexB_books = [(⟨"B", 10, "X"⟩ : Book)] from rfl, hrun]
  norm_num [cexB_final, cexB_events, cexB_ev2, cexB_ev1, cexB_ev0, add_event,
    schedule_book_review, cexB_cfg, calculate_reading_time_hours,
    calculate_reading_time_minutes, dict_get]

theorem cexB_reading_sessions :
    ((create_reading_plan hash0 clock0 cexB_books cexB_cfg).1.filter is_reading_event).map
      (fun e => (e.dtstart, event_duration e)) = [(600, 15), (2040, 5)] := by
  rw [cexB_run]
  show ((cexB_events.filter is_reading_event).map (fun e => (e.dtstart, event_duration e))) = _
  simp only [cexB_events, cexB_ev2, cexB_ev1, cexB_ev0, add_event, schedule_book_review,
    next_reading_day]
  norm_num [List.filter_append, List.filter_cons, List.filter_nil, is_reading_event,
    decide_eq_true_eq, escape_reading_head_lit, escape_review_head_lit, escape_final_head,
    event_duration, show ('🔄' : Char) ≠ '📚' from by decide,
    show ('🎓' : Char) ≠ '📚' from by decide]

theorem cexB_review_events :
    ((create_reading_plan hash0 clock0 cexB_books cexB_cfg).1.filter
      (fun e => decide (e.summary.data.head? = some '🔄'))).map (fun e => e.dtstart) =
      [4020] := by
  rw [cexB_run]
  show ((cexB_events.filter _).map (fun e => e.dtstart)) = _
  simp only [cexB_events, cexB_ev2, cexB_ev1, cexB_ev0, add_event, schedule_book_review,
    next_reading_day]
  norm_num [List.filter_append, List.filter_cons, List.filter_nil,
    decide_eq_true_eq, escape_reading_head_lit, escape_review_head_lit, escape_final_head,
    show ('📚' : Char) ≠ '🔄' from by decide, show ('🎓' : Char) ≠ '🔄' from by decide]

/-- C3: (a) in a session step that dedicates positive time, the book is
appended to the completed ledger if and only if the remaining minutes
right after the subtraction are at most 0.1; (b) in the spec's concrete
scenario (10 pages at 2.0 min/page = 20 minutes, 15-minute daily budget)
the book completes on the second reading day (sessions of 15 and 5
minutes, ledger completion date = day 1) and exactly one review event is
emitted, on day 2 — the next eligible reading weekday after completion —
at the review start time (2·1440 + 1140 = 4020). -/
theorem claim3_completion_threshold :
    (∀ (hashF : String → Int) (clock : Nat → Int) (cfg : PlanConfig) (books : List Book)
      (current_date : Nat) (st : EngineState) (s rem : ℚ)
      (h : st.current_book_index < books.length),
      0 < min rem st.current_book_remaining_min →
      ((∃ entry, (session_step hashF clock cfg books current_date st s rem h).1.books_completed =
          st.books_completed ++ [entry]) ↔
        st.current_book_remaining_min - min rem st.current_book_remaining_min ≤ 1 / 10)) ∧
    (create_reading_plan hash0 clock0 cexB_books cexB_cfg).2.1 =
      [⟨"B", py_round2 (1 / 3), 1⟩] ∧
    ((create_reading_plan hash0 clock0 cexB_books cexB_cfg).1.filter is_reading_event).map
      (fun e => (e.dtstart, event_duration e)) = [(600, 15), (2040, 5)] ∧
    ((create_reading_plan hash0 clock0 cexB_books cexB_cfg).1.filter
      (fun e => decide (e.summary.data.head? = some '🔄'))).map (fun e => e.dtstart) =
      [((next_reading_day 7 (1 + 1) cexB_cfg.reading_weekdays : Nat) : ℚ) * 1440 +
        cexB_cfg.start_time_review] ∧
    next_reading_day 7 (1 + 1) cexB_cfg.reading_weekdays = 1 + 1 := by
  refine ⟨?_, ?_, cexB_reading_sessions, ?_, by decide⟩
  · intro hashF clock cfg books current_date st s rem h hpos
    simp only [session_step]
    rw [if_neg (not_le.mpr hpos)]
    by_cases hc : st.current_book_remaining_min - min rem st.current_book_remaining_min ≤ 1 / 10
    · rw [if_pos hc]
      refine iff_of_true ?_ hc
      split
      · exact ⟨_, rfl⟩
      · exact ⟨_, rfl⟩
    · rw [if_neg hc]
      refine iff_of_false ?_ hc
      rintro ⟨entry, he⟩
      have hlen := congrArg List.length he
      simp at hlen
  · rw [cexB_run]
  · rw [cexB_review_events]
    norm_num [cexB_cfg, next_reading_day]

theorem claim3_witness :
    ((⟨[], [], 0, 20⟩ : EngineState).current_book_index < cexB_books.length) ∧
    (0 : ℚ) < min 15 (⟨[], [], 0, 20⟩ : EngineState).current_book_remaining_min ∧
    ((∃ entry,
        (session_step hash0 clock0 cexB_cfg cexB_books 0 ⟨[], [], 0, 20⟩ 600 15
          (by decide)).1.books_completed = ([] : List CompletedBook) ++ [entry]) ↔
      (⟨[], [], 0, 20⟩ : EngineState).current_book_remaining_min -
        min 15 (⟨[], [], 0, 20⟩ : EngineState).current_book_remaining_min ≤ 1 / 10) :=
  ⟨by decide, by norm_num,
    claim3_completion_threshold.1 hash0 clock0 cexB_cfg cexB_books 0 ⟨[], [], 0, 20⟩ 600 15
      (by decide) (by norm_num)⟩

theorem add_event_spec (hashF : String → Int) (clock : Nat → Int) (events_list : List Event)
    (dt_start minutes : ℚ) (summary description organizer_email organizer_name : String)
    (rc : RemindersConfig) (location status : String) (is_rev : Bool) :
    ∃ ev, add_event hashF clock events_list dt_start minutes summary description
        organizer_email organizer_name rc location status is_rev = events_list ++ [ev] ∧
      ev.dtstart = dt_start ∧ ev.dtend = dt_start + minutes ∧
      ev.summary = escape_ics_text summary ∧
      ev.uid = get_ics_uid hashF dt_start summary :=
  ⟨_, rfl, rfl, rfl, rfl, rfl⟩

theorem schedule_book_review_spec (hashF : String → Int) (clock : Nat → Int)
    (events_list : List Event) (review_date : Nat) (book_name : String)
    (book_hours review_time_min start_time_review : ℚ) (reading_weekdays : List Nat)
    (organizer_email organizer_name : String) (rc : RemindersConfig) :
    ∃ ev, schedule_book_review hashF clock events_list review_date book_name book_hours
        review_time_min start_time_review reading_weekdays organizer_email organizer_name rc =
        events_list ++ [ev] ∧
      ev.dtstart = ((next_reading_day 7 review_date reading_weekdays : Nat) : ℚ) * 1440 +
        start_time_review ∧
      ev.dtend = ev.dtstart + review_time_min ∧
      ev.summary = escape_ics_text ("🔄 REVISIÓN COMPLETA: " ++ book_name) :=
  ⟨_, rfl, rfl, rfl, rfl⟩

theorem session_step_durations (hashF : String → Int) (clock : Nat → Int) (cfg : PlanConfig)
    (books : List Book) (current_date : Nat) (st : EngineState) (s rem : ℚ)
    (h : st.current_book_index < books.length)
    (hrev : 0 < cfg.review_time_per_book_min)
    (hdur : ∀ e ∈ st.events, e.dtstart < e.dtend) :
    ∀ e ∈ (session_step hashF clock cfg books current_date st s rem h).1.events,
      e.dtstart < e.dtend := by
  simp only [session_step]
  by_cases ht : min rem st.current_book_remaining_min ≤ 0
  · rw [if_pos ht]
    exact hdur
  · rw [if_neg ht]
    have htpos : 0 < min rem st.current_book_remaining_min := lt_of_not_le ht
    obtain ⟨ev1, he1, hs1, hend1, _, _⟩ := add_event_spec hashF clock st.events s
      (min rem st.current_book_remaining_min) _ _ cfg.organizer_email cfg.organizer_name
      plan_reminders "Sala de estudio" "CONFIRMED" false
    rw [he1]
    have hdur1 : ∀ e ∈ st.events ++ [ev1], e.dtstart < e.dtend := by
      intro e he
      rcases List.mem_append.mp he with hmem | hmem
      · exact hdur e hmem
      · rcases List.mem_singleton.mp hmem with rfl
        rw [hs1, hend1]
        linarith
    by_cases hc : st.current_book_remaining_min - min rem st.current_book_remaining_min ≤ 1 / 10
    · rw [if_pos hc]
      obtain ⟨ev2, he2, hs2, hend2, _⟩ := schedule_book_review_spec hashF clock
        (st.events ++ [ev1]) (current_date + 1) _ _ cfg.review_time_per_book_min
        cfg.start_time_review cfg.reading_weekdays cfg.organizer_email cfg.organizer_name
        plan_reminders
      rw [he2]
      have hdur2 : ∀ e ∈ (st.events ++ [ev1]) ++ [ev2], e.dtstart < e.dtend := by
        intro e he
        rcases List.mem_append.mp he with hmem | hmem
        · exact hdur1 e hmem
        · rcases List.mem_singleton.mp hmem with rfl
          rw [hend2]
          linarith
      split
      · exact hdur2
      · by_cases hf : 0 < rem - min rem st.current_book_remaining_min
        · rw [if_pos hf]
          obtain ⟨ev3, he3, hs3, hend3, _, _⟩ := add_event_spec hashF clock
            ((st.events ++ [ev1]) ++ [ev2]) (s + min rem st.current_book_remaining_min)
            (rem - min rem st.current_book_remaining_min) _ _ cfg.organizer_email
            cfg.organizer_name plan_reminders "" "CONFIRMED" true
          rw [he3]
          intro e he
          rcases List.mem_append.mp he with hmem | hmem
          · exact hdur2 e hmem
          · rcases List.mem_singleton.mp hmem with rfl
            rw [hs3, hend3]
            linarith
        · rw [if_neg hf]
          exact hdur2
    · rw [if_neg hc]
      exact hdur1

theorem session_loop_durations (hashF : String → Int) (clock : Nat → Int) (cfg : PlanConfig)
    (books : List Book) (current_date : Nat) (hrev : 0 < cfg.review_time_per_book_min) :
    ∀ (fuel : Nat) (st : EngineState) (s rem : ℚ),
      (∀ e ∈ st.events, e.dtstart < e.dtend) →
      ∀ e ∈ (session_loop hashF clock cfg books current_date fuel st s rem).events,
        e.dtstart < e.dtend := by
  intro fuel
  induction fuel with
  | zero => intro st s rem hdur; exact hdur
  | succ fuel ih =>
    intro st s rem hdur
    simp only [session_loop]
    by_cases hcond : 0 < rem ∧ st.current_book_index < books.length
    · rw [dif_pos hcond]
      have hstep := session_step_durations hashF clock cfg books current_date st s rem
        hcond.2 hrev hdur
      split
      · exact hstep
      · exact ih _ _ _ hstep
    · rw [dif_neg hcond]
      exact hdur

theorem day_loop_durations (hashF : String → Int) (clock : Nat → Int) (cfg : PlanConfig)
    (books : List Book) (hrev : 0 < cfg.review_time_per_book_min) :
    ∀ (fuel d : Nat) (st : EngineState),
      (∀ e ∈ st.events, e.dtstart < e.dtend) →
      ∀ e ∈ (day_loop hashF clock cfg books fuel d st).2.events, e.dtstart < e.dtend := by
  intro fuel
  induction fuel with
  | zero => intro d st hdur; exact hdur
  | succ fuel ih =>
    intro d st hdur
    simp only [day_loop]
    by_cases hle : d ≤ cfg.end_date
    · rw [if_pos hle]
      by_cases hwd : d % 7 ∈ cfg.reading_weekdays
      · rw [if_pos hwd]
        have hsess := session_loop_durations hashF clock cfg books d hrev
          (books.length + 2) st ((d : ℚ) * 1440 + cfg.start_time_books)
          cfg.daily_time_total_minutes hdur
        split
        · exact hsess
        · exact ih _ _ hsess
      · rw [if_neg hwd]
        split
        · exact hdur
        · exact ih _ _ hdur
    · rw [if_neg hle]
      exact hdur

/-- C6: (a) every record built by `add_event` is appended as one event
whose end timestamp is its start timestamp plus the requested duration;
(b) for every valid plan input — positive daily budget, positive review
duration, positive page counts, positive reading speeds — every event in
the returned list (reading session, book review, or final integration
event) has strictly positive duration (`dtstart < dtend`). -/
theorem claim6_event_durations :
    (∀ (hashF : String → Int) (clock : Nat → Int) (events_list : List Event)
      (dt_start minutes : ℚ) (summary description oe oname : String)
      (rc : RemindersConfig) (location status : String) (is_rev : Bool),
      ∃ ev, add_event hashF clock events_list dt_start minutes summary description
          oe oname rc location status is_rev = events_list ++ [ev] ∧
        ev.dtstart = dt_start ∧ ev.dtend = dt_start + minutes) ∧
    (∀ (hashF : String → Int) (clock : Nat → Int) (books : List Book) (cfg : PlanConfig),
      0 < cfg.daily_time_total_minutes → 0 < cfg.review_time_per_book_min →
      (∀ bk ∈ books, 0 < bk.pages) → (∀ p ∈ cfg.reading_speeds, 0 < p.2) →
      ∀ e ∈ (create_reading_plan hashF clock books cfg).1, e.dtstart < e.dtend) := by
  constructor
  · intro hashF clock events_list dt_start minutes summary description oe oname rc loc status rev
    obtain ⟨ev, he, hs, hend, _, _⟩ := add_event_spec hashF clock events_list dt_start minutes
      summary description oe oname rc loc status rev
    exact ⟨ev, he, hs, hend⟩
  · intro hashF clock books cfg _ hrev _ _
    match books with
    | [] => intro e he; simp [create_reading_plan] at he
    | b :: bs =>
      intro e he
      simp only [create_reading_plan] at he
      exact day_loop_durations hashF clock cfg (b :: bs) hrev _ _ _ (by simp) e he

theorem claim6_witness :
    ((0 : ℚ) < cexA_cfg.daily_time_total_minutes) ∧
    ((0 : ℚ) < cexA_cfg.review_time_per_book_min) ∧
    (∀ bk ∈ cexA_books, 0 < bk.pages) ∧
    (∀ p ∈ cexA_cfg.reading_speeds, 0 < p.2) ∧
    (∀ e ∈ (create_reading_plan hash0 clock0 cexA_books cexA_cfg).1, e.dtstart < e.dtend) :=
  ⟨by norm_num [cexA_cfg], by norm_num [cexA_cfg], by decide, by norm_num [cexA_cfg],
    claim6_event_durations.2 hash0 clock0 cexA_books cexA_cfg (by norm_num [cexA_cfg])
      (by norm_num [cexA_cfg]) (by decide) (by norm_num [cexA_cfg])⟩

theorem reading_chain_mono (evs : List Event) (ub ub' : ℚ) (hle : ub ≤ ub')
    (h : reading_chain evs ub) : reading_chain evs ub' :=
  ⟨fun e he => le_trans (h.1 e he) hle, h.2⟩

theorem filter_reading_append_reading (l : List Event) (ev : Event)
    (h : is_reading_event ev = true) :
    (l ++ [ev]).filter is_reading_event = l.filter is_reading_event ++ [ev] := by
  simp [List.filter_append, h]

theorem filter_reading_append_other (l : List Event) (ev : Event)
    (h : is_reading_event ev = false) :
    (l ++ [ev]).filter is_reading_event = l.filter is_reading_event := by
  simp [List.filter_append, h]

theorem reading_chain_snoc (l : List Event) (ev : Event) (ub : ℚ)
    (hr : is_reading_event ev = true) (hch : reading_chain l ub)
    (hstart : ub ≤ ev.dtstart) (hend : ev.dtstart ≤ ev.dtend) :
    reading_chain (l ++ [ev]) ev.dtend := by
  rw [reading_chain, filter_reading_append_reading l ev hr]
  constructor
  · intro e he
    rcases List.mem_append.mp he with hmem | hmem
    · exact le_trans (hch.1 e hmem) (le_trans hstart hend)
    · rcases List.mem_singleton.mp hmem with rfl
      exact le_refl _
  · rw [List.pairwise_append]
    refine ⟨hch.2, List.pairwise_singleton _ _, ?_⟩
    intro a ha b hb
    rcases List.mem_singleton.mp hb with rfl
    exact le_trans (hch.1 a ha) hstart

theorem session_step_chain (hashF : String → Int) (clock : Nat → Int) (cfg : PlanConfig)
    (books : List Book) (current_date : Nat) (st : EngineState) (s rem : ℚ)
    (h : st.current_book_index < books.length) (hrem : 0 ≤ rem)
    (hch : reading_chain st.events s)
    (st' : EngineState) (s' rem' : ℚ) (brk : Bool)
    (heq : session_step hashF clock cfg books current_date st s rem h = (st', s', rem', brk)) :
    (brk = true → reading_chain st'.events (s + rem)) ∧
    (brk = false → reading_chain st'.events s' ∧ s' + rem' = s + rem ∧ 0 ≤ rem') := by
  simp only [session_step] at heq
  by_cases ht : min rem st.current_book_remaining_min ≤ 0
  · rw [if_pos ht] at heq
    simp only [Prod.mk.injEq] at heq
    obtain ⟨h1, h2, h3, h4⟩ := heq
    subst h1; subst h2; subst h3; subst h4
    refine ⟨fun _ => reading_chain_mono _ _ _ (by linarith) hch, fun hb => by simp at hb⟩
  · rw [if_neg ht] at heq
    have htpos : 0 < min rem st.current_book_remaining_min := lt_of_not_le ht
    have htrem : min rem st.current_book_remaining_min ≤ rem := min_le_left _ _
    obtain ⟨ev1, he1, hs1, hend1, hsum1, _⟩ := add_event_spec hashF clock st.events s
      (min rem st.current_book_remaining_min) _ _ cfg.organizer_email cfg.organizer_name
      plan_reminders "Sala de estudio" "CONFIRMED" false
    rw [he1] at heq
    have hr1 : is_reading_event ev1 = true :=
      is_reading_event_escape_reading _ ev1 hsum1
    have hch1 : reading_chain (st.events ++ [ev1]) (s + min rem st.current_book_remaining_min) := by
      have := reading_chain_snoc st.events ev1 s hr1 hch (le_of_eq hs1.symm)
        (by rw [hs1, hend1]; linarith)
      rwa [hend1] at this
    by_cases hc : st.current_book_remaining_min - min rem st.current_book_remaining_min ≤ 1 / 10
    · rw [if_pos hc] at heq
      obtain ⟨ev2, he2, hs2, hend2, hsum2⟩ := schedule_book_review_spec hashF clock
        (st.events ++ [ev1]) (current_date + 1) _ _ cfg.review_time_per_book_min
        cfg.start_time_review cfg.reading_weekdays cfg.organizer_email cfg.organizer_name
        plan_reminders
      rw [he2] at heq
      have hr2 : is_reading_event ev2 = false :=
        is_reading_event_escape_review _ ev2 hsum2
      have hch2 : reading_chain ((st.events ++ [ev1]) ++ [ev2])
          (s + min rem st.current_book_remaining_min) := by
        rw [reading_chain, filter_reading_append_other _ ev2 hr2]
        exact hch1
      split at heq
      · simp only [Prod.mk.injEq] at heq
        obtain ⟨h1, h2, h3, h4⟩ := heq
        subst h1; subst h2; subst h3; subst h4
        refine ⟨fun hb => by simp at hb, fun _ => ⟨hch2, by ring, by linarith⟩⟩
      · by_cases hf : 0 < rem - min rem st.current_book_remaining_min
        · rw [if_pos hf] at heq
          obtain ⟨ev3, he3, hs3, hend3, hsum3, _⟩ := add_event_spec hashF clock
            ((st.events ++ [ev1]) ++ [ev2]) (s + min rem st.current_book_remaining_min)
            (rem - min rem st.current_book_remaining_min) _ _ cfg.organizer_email
            cfg.organizer_name plan_reminders "" "CONFIRMED" true
          rw [he3] at heq
          simp only [Prod.mk.injEq] at heq
          obtain ⟨h1, h2, h3, h4⟩ := heq
          subst h1; subst h2; subst h3; subst h4
          refine ⟨fun _ => ?_, fun hb => by simp at hb⟩
          rw [reading_chain, filter_reading_append_other _ ev3
            (is_reading_event_escape_final ev3 hsum3)]
          exact reading_chain_mono _ _ _ (by linarith) hch2
        · rw [if_neg hf] at heq
          simp only [Prod.mk.injEq] at heq
          obtain ⟨h1, h2, h3, h4⟩ := heq
          subst h1; subst h2; subst h3; subst h4
          refine ⟨fun _ => reading_chain_mono _ _ _ (by linarith) hch2, fun hb => by simp at hb⟩
    · rw [if_neg hc] at heq
      simp only [Prod.mk.injEq] at heq
      obtain ⟨h1, h2, h3, h4⟩ := heq
      subst h1; subst h2; subst h3; subst h4
      refine ⟨fun hb => by simp at hb, fun _ => ⟨hch1, by ring, by linarith⟩⟩

theorem session_loop_chain (hashF : String → Int) (clock : Nat → Int) (cfg : PlanConfig)
    (books : List Book) (current_date : Nat) :
    ∀ (fuel : Nat) (st : EngineState) (s rem : ℚ), 0 ≤ rem → reading_chain st.events s →
      reading_chain (session_loop hashF clock cfg books current_date fuel st s rem).events
        (s + rem) := by
  intro fuel
  induction fuel with
  | zero =>
    intro st s rem hrem hch
    exact reading_chain_mono _ _ _ (by linarith) hch
  | succ fuel ih =>
    intro st s rem hrem hch
    simp only [session_loop]
    by_cases hcond : 0 < rem ∧ st.current_book_index < books.length
    · rw [dif_pos hcond]
      obtain ⟨⟨st', s', rem', brk⟩, hstep⟩ :
          ∃ r, session_step hashF clock cfg books current_date st s rem hcond.2 = r := ⟨_, rfl⟩
      obtain ⟨hbrk, hcont⟩ := session_step_chain hashF clock cfg books current_date st s rem
        hcond.2 hrem hch st' s' rem' brk hstep
      rw [hstep]
      cases brk with
      | true => simpa using hbrk rfl
      | false =>
        obtain ⟨hch', hsum, hrem'⟩ := hcont rfl
        have hres := ih st' s' rem' hrem' hch'
        rw [hsum] at hres
        simpa using hres
    · rw [dif_neg hcond]
      exact reading_chain_mono _ _ _ (by linarith) hch

theorem day_loop_chain (hashF : String → Int) (clock : Nat → Int) (cfg : PlanConfig)
    (books : List Book) (hbud : 0 ≤ cfg.daily_time_total_minutes)
    (hst0 : 0 ≤ cfg.start_time_books)
    (hday : cfg.start_time_books + cfg.daily_time_total_minutes ≤ 1440) :
    ∀ (fuel d : Nat) (st : EngineState),
      reading_chain st.events ((d : ℚ) * 1440 + cfg.start_time_books) →
      reading_chain (day_loop hashF clock cfg books fuel d st).2.events
        (((day_loop hashF clock cfg books fuel d st).1 : ℚ) * 1440 + cfg.start_time_books) := by
  intro fuel
  induction fuel with
  | zero => intro d st hch; exact hch
  | succ fuel ih =>
    intro d st hch
    have hnext : ((d : ℚ) * 1440 + cfg.start_time_books) + cfg.daily_time_total_minutes ≤
        ((d + 1 : Nat) : ℚ) * 1440 + cfg.start_time_books := by
      push_cast
      linarith
    simp only [day_loop]
    by_cases hle : d ≤ cfg.end_date
    · rw [if_pos hle]
      by_cases hwd : d % 7 ∈ cfg.reading_weekdays
      · rw [if_pos hwd]
        have hsess := session_loop_chain hashF clock cfg books d (books.length + 2) st
          ((d : ℚ) * 1440 + cfg.start_time_books) cfg.daily_time_total_minutes hbud hch
        have hsess' := reading_chain_mono _ _ _ hnext hsess
        split
        · exact hsess'
        · exact ih _ _ hsess'
      · rw [if_neg hwd]
        have hch' := reading_chain_mono _ _
          (((d + 1 : Nat) : ℚ) * 1440 + cfg.start_time_books)
          (by push_cast; linarith) hch
        split
        · exact hch'
        · exact ih _ _ hch'
    · rw [if_neg hle]
      exact hch

/-- C2, amended: the full event list is not in appended order by start
time (see the counterexample: review and final-integration events are
appended out of order), but the reading-session events are: under the
valid-input hypotheses (non-negative session start-of-day time, positive
review duration, and a daily session that fits within its day,
`start_time_books + daily_budget ≤ 1440` minutes), the reading-session
events of a plan are pairwise chained — each ends no later than the next
starts — hence their start times are non-decreasing and no two of them
overlap; each also has positive duration. -/
theorem claim2_amended (hashF : String → Int) (clock : Nat → Int) (books : List Book)
    (cfg : PlanConfig) (hbud : 0 < cfg.daily_time_total_minutes)
    (hrev : 0 < cfg.review_time_per_book_min) (hst0 : 0 ≤ cfg.start_time_books)
    (hday : cfg.start_time_books + cfg.daily_time_total_minutes ≤ 1440) :
    ((create_reading_plan hashF clock books cfg).1.filter is_reading_event).Pairwise
      (fun a b => a.dtend ≤ b.dtstart) ∧
    (∀ e ∈ (create_reading_plan hashF clock books cfg).1.filter is_reading_event,
      e.dtstart < e.dtend) ∧
    ((create_reading_plan hashF clock books cfg).1.filter is_reading_event).Pairwise
      (fun a b => a.dtstart ≤ b.dtstart) := by
  match books with
  | [] =>
    refine ⟨by simp [create_reading_plan], by simp [create_reading_plan], by
      simp [create_reading_plan]⟩
  | b :: bs =>
    have hch := day_loop_chain hashF clock cfg (b :: bs) (le_of_lt hbud) hst0 hday
      (cfg.end_date + 2 - cfg.start_date) cfg.start_date
      ⟨[], [], 0, calculate_reading_time_minutes b cfg.reading_speeds⟩
      (by constructor <;> simp [reading_chain])
    have hdur := day_loop_durations hashF clock cfg (b :: bs) hrev
      (cfg.end_date + 2 - cfg.start_date) cfg.start_date
      ⟨[], [], 0, calculate_reading_time_minutes b cfg.reading_speeds⟩ (by simp)
    have hpair : ((create_reading_plan hashF clock (b :: bs) cfg).1.filter
        is_reading_event).Pairwise (fun a b => a.dtend ≤ b.dtstart) := by
      simp only [create_reading_plan]
      exact hch.2
    have hdur' : ∀ e ∈ (create_reading_plan hashF clock (b :: bs) cfg).1.filter
        is_reading_event, e.dtstart < e.dtend := by
      intro e he
      have hmem : e ∈ (create_reading_plan hashF clock (b :: bs) cfg).1 :=
        List.mem_of_mem_filter he
      simp only [create_reading_plan] at hmem
      exact hdur e hmem
    refine ⟨hpair, hdur', ?_⟩
    refine hpair.imp_of_mem ?_
    intro a b ha hb hab
    exact le_trans (le_of_lt (hdur' a ha)) hab

theorem claim2_witness :
    ((0 : ℚ) < cexA_cfg.daily_time_total_minutes) ∧
    ((0 : ℚ) < cexA_cfg.review_time_per_book_min) ∧
    ((0 : ℚ) ≤ cexA_cfg.start_time_books) ∧
    (cexA_cfg.start_time_books + cexA_cfg.daily_time_total_minutes ≤ 1440) ∧
    (((create_reading_plan hash0 clock0 cexA_books cexA_cfg).1.filter
        is_reading_event).Pairwise (fun a b => a.dtend ≤ b.dtstart) ∧
      (∀ e ∈ (create_reading_plan hash0 clock0 cexA_books cexA_cfg).1.filter is_reading_event,
        e.dtstart < e.dtend) ∧
      ((create_reading_plan hash0 clock0 cexA_books cexA_cfg).1.filter
        is_reading_event).Pairwise (fun a b => a.dtstart ≤ b.dtstart)) :=
  ⟨by norm_num [cexA_cfg], by norm_num [cexA_cfg], by norm_num [cexA_cfg],
    by norm_num [cexA_cfg],
    claim2_amended hash0 clock0 cexA_books cexA_cfg (by norm_num [cexA_cfg])
      (by norm_num [cexA_cfg]) (by norm_num [cexA_cfg]) (by norm_num [cexA_cfg])⟩

theorem session_step_ledger (hashF : String → Int) (clock : Nat → Int) (cfg : PlanConfig)
    (books : List Book) (current_date : Nat) (st : EngineState) (s rem : ℚ)
    (h : st.current_book_index < books.length) :
    ∃ tail, (session_step hashF clock cfg books current_date st s rem h).1.books_completed =
        st.books_completed ++ tail ∧
      (∀ x ∈ tail, x.fecha = current_date) ∧
      (session_step hashF clock cfg books current_date st s rem h).1.current_book_index =
        st.current_book_index + tail.length := by
  simp only [session_step]
  split
  · exact ⟨[], by simp, by simp, by simp⟩
  · split
    · split
      · exact ⟨[⟨(books.get ⟨st.current_book_index, h⟩).title,
          py_round2 (calculate_reading_time_hours (books.get ⟨st.current_book_index, h⟩)
            cfg.reading_speeds), current_date⟩], by simp, by simp, by simp⟩
      · exact ⟨[⟨(books.get ⟨st.current_book_index, h⟩).title,
          py_round2 (calculate_reading_time_hours (books.get ⟨st.current_book_index, h⟩)
            cfg.reading_speeds), current_date⟩], by simp, by simp, by simp⟩
    · exact ⟨[], by simp, by simp, by simp⟩

theorem session_loop_ledger (hashF : String → Int) (clock : Nat → Int) (cfg : PlanConfig)
    (books : List Book) (current_date : Nat) :
    ∀ (fuel : Nat) (st : EngineState) (s rem : ℚ),
      ∃ tail, (session_loop hashF clock cfg books current_date fuel st s rem).books_completed =
          st.books_completed ++ tail ∧
        (∀ x ∈ tail, x.fecha = current_date) ∧
        (session_loop hashF clock cfg books current_date fuel st s rem).current_book_index =
          st.current_book_index + tail.length := by
  intro fuel
  induction fuel with
  | zero => intro st s rem; exact ⟨[], by simp [session_loop], by simp, by simp [session_loop]⟩
  | succ fuel ih =>
    intro st s rem
    simp only [session_loop]
    by_cases hcond : 0 < rem ∧ st.current_book_index < books.length
    · rw [dif_pos hcond]
      obtain ⟨⟨st', s', rem', brk⟩, hstep⟩ :
          ∃ r, session_step hashF clock cfg books current_date st s rem hcond.2 = r := ⟨_, rfl⟩
      obtain ⟨t1, h1, h2, h3⟩ := session_step_ledger hashF clock cfg books current_date st s rem
        hcond.2
      rw [hstep] at h1 h3
      rw [hstep]
      cases brk with
      | true => exact ⟨t1, by simpa using h1, h2, by simpa using h3⟩
      | false =>
        obtain ⟨t2, g1, g2, g3⟩ := ih st' s' rem'
        refine ⟨t1 ++ t2, ?_, ?_, ?_⟩
        · show (session_loop hashF clock cfg books
              current_date fuel st' s' rem').books_completed = _
          rw [g1]
          simp only [Prod.fst] at h1
          rw [h1, List.append_assoc]
        · intro x hx
          rcases List.mem_append.mp hx with hm | hm
          · exact h2 x hm
          · exact g2 x hm
        · show (session_loop hashF clock cfg books
              current_date fuel st' s' rem').current_book_index = _
          rw [g3]
          simp only [Prod.fst] at h3
          rw [h3, List.length_append]
          omega
    · rw [dif_neg hcond]
      exact ⟨[], by simp, by simp, by simp⟩

theorem day_loop_completion (hashF : String → Int) (clock : Nat → Int) (cfg : PlanConfig)
    (books : List Book) :
    ∀ (fuel d : Nat) (st : EngineState),
      st.current_book_index < books.length →
      books.length ≤ (day_loop hashF clock cfg books fuel d st).2.current_book_index →
      ∃ e, (day_loop hashF clock cfg books fuel d st).2.books_completed.getLast? = some e ∧
        (day_loop hashF clock cfg books fuel d st).1 = e.fecha + 1 := by
  intro fuel
  induction fuel with
  | zero =>
    intro d st hlt hge
    simp only [day_loop] at hge
    omega
  | succ fuel ih =>
    intro d st hlt hge
    simp only [day_loop] at hge ⊢
    by_cases hle : d ≤ cfg.end_date
    · rw [if_pos hle] at hge ⊢
      by_cases hwd : d % 7 ∈ cfg.reading_weekdays
      · rw [if_pos hwd] at hge ⊢
        obtain ⟨tail, h1, h2, h3⟩ := session_loop_ledger hashF clock cfg books d
          (books.length + 2) st ((d : ℚ) * 1440 + cfg.start_time_books)
          cfg.daily_time_total_minutes
        by_cases hidx : books.length ≤ (session_loop hashF clock cfg books d
            (books.length + 2) st ((d : ℚ) * 1440 + cfg.start_time_books)
            cfg.daily_time_total_minutes).current_book_index
        · rw [if_pos hidx] at hge ⊢
          have htail : tail ≠ [] := by
            intro hnil
            rw [hnil] at h3
            simp at h3
            omega
          obtain ⟨x, hx⟩ := Option.isSome_iff_exists.mp
            ((List.getLast?_isSome).mpr htail)
          refine ⟨x, ?_, ?_⟩
          · rw [h1, List.getLast?_append_of_ne_nil _ htail]
            exact hx
          · have hxm : x ∈ tail := by
              obtain ⟨ys, hys⟩ := List.getLast?_eq_some_iff.mp hx
              rw [hys]
              simp
            rw [h2 x hxm]
        · rw [if_neg hidx] at hge ⊢
          exact ih (d + 1) _ (by omega) hge
      · rw [if_neg hwd] at hge ⊢
        by_cases hidx : books.length ≤ st.current_book_index
        · omega
        · rw [if_neg hidx] at hge ⊢
          exact ih (d + 1) st (by omega) hge
    · rw [if_neg hle] at hge
      simp at hge
      omega

/-- C5: (a) for a non-empty book list, the returned `total_days`
statistic is exactly the absolute difference in days between `start_date`
and the date at which the outer day loop stopped; (b) when the run
completes every book, the loop stops one day after the last completion
date recorded in the ledger, so `total_days` equals
`last completion date + 1 - start_date` — it reflects the actual
completion date rather than the configured window. -/
theorem claim5_total_days (hashF : String → Int) (clock : Nat → Int) (b : Book)
    (bs : List Book) (cfg : PlanConfig) :
    ((create_reading_plan hashF clock (b :: bs) cfg).2.2.total_days =
      some (((cfg.start_date : Int) -
        (((engine_run hashF clock b bs cfg).1 : Nat) : Int)).natAbs)) ∧
    ((b :: bs).length ≤ (engine_run hashF clock b bs cfg).2.current_book_index →
      ∃ e, (engine_run hashF clock b bs cfg).2.books_completed.getLast? = some e ∧
        (engine_run hashF clock b bs cfg).1 = e.fecha + 1 ∧
        (create_reading_plan hashF clock (b :: bs) cfg).2.2.total_days =
          some (((cfg.start_date : Int) - ((e.fecha : Int) + 1)).natAbs)) := by
  constructor
  · rfl
  · intro hcompl
    obtain ⟨e, he1, he2⟩ := day_loop_completion hashF clock cfg (b :: bs)
      (cfg.end_date + 2 - cfg.start_date) cfg.start_date
      ⟨[], [], 0, calculate_reading_time_minutes b cfg.reading_speeds⟩ (by simp) hcompl
    refine ⟨e, he1, he2, ?_⟩
    have ha : (create_reading_plan hashF clock (b :: bs) cfg).2.2.total_days =
        some (((cfg.start_date : Int) -
          (((engine_run hashF clock b bs cfg).1 : Nat) : Int)).natAbs) := rfl
    rw [ha, show (engine_run hashF clock b bs cfg).1 = e.fecha + 1 from he2]
    simp only [Option.some.injEq]
    omega

theorem claim5_witness :
    (([⟨"B", 1, "X"⟩] : List Book).length ≤
      (engine_run hash0 clock0 ⟨"B", 1, "X"⟩ [] cexA_cfg).2.current_book_index) ∧
    (∃ e, (engine_run hash0 clock0 ⟨"B", 1, "X"⟩ [] cexA_cfg).2.books_completed.getLast? =
        some e ∧
      (engine_run hash0 clock0 ⟨"B", 1, "X"⟩ [] cexA_cfg).1 = e.fecha + 1 ∧
      (create_reading_plan hash0 clock0 [⟨"B", 1, "X"⟩] cexA_cfg).2.2.total_days =
        some (((cexA_cfg.start_date : Int) - ((e.fecha : Int) + 1)).natAbs)) := by
  have hcompl : ([⟨"B", 1, "X"⟩] : List Book).length ≤
      (engine_run hash0 clock0 ⟨"B", 1, "X"⟩ [] cexA_cfg).2.current_book_index := by
    rw [cexA_engine_run]
    decide
  exact ⟨hcompl, (claim5_total_days hash0 clock0 ⟨"B", 1, "X"⟩ [] cexA_cfg).2 hcompl⟩

theorem allocated_minutes_snoc_reading (bt nm : String) (l : List Event) (ev : Event)
    (hsum : ev.summary = escape_ics_text ("📚 LECTURA: " ++ nm)) :
    allocated_minutes bt (l ++ [ev]) =
      allocated_minutes bt l + (if nm = bt then event_duration ev else 0) := by
  simp only [allocated_minutes, List.filter_append]
  by_cases hnm : nm = bt
  · subst hnm
    rw [show (List.filter (fun e => e.summary == escape_ics_text ("📚 LECTURA: " ++ nm)) [ev]) =
        [ev] from by simp [List.filter_cons, hsum]]
    simp
  · rw [show (List.filter (fun e => e.summary == escape_ics_text ("📚 LECTURA: " ++ bt)) [ev]) =
        [] from by
      simp only [List.filter_cons, List.filter_nil]
      rw [hsum]
      have : escape_ics_text ("📚 LECTURA: " ++ nm) ≠ escape_ics_text ("📚 LECTURA: " ++ bt) := by
        intro hh
        exact hnm (reading_summary_inj nm bt (escape_ics_injective _ _ hh))
      simp [this]]
    simp [hnm]

theorem allocated_minutes_snoc_other (bt : String) (l : List Event) (ev : Event)
    (hne : ev.summary ≠ escape_ics_text ("📚 LECTURA: " ++ bt)) :
    allocated_minutes bt (l ++ [ev]) = allocated_minutes bt l := by
  simp only [allocated_minutes, List.filter_append]
  rw [show (List.filter (fun e => e.summary == escape_ics_text ("📚 LECTURA: " ++ bt)) [ev]) =
      [] from by
    simp only [List.filter_cons, List.filter_nil]
    simp [hne]]
  simp

theorem distinct_titles_get (books : List Book)
    (hd : books.Pairwise (fun a b => a.title ≠ b.title)) (i j : Nat)
    (hi : i < books.length) (hj : j < books.length) (hne : i ≠ j) :
    (books.get ⟨i, hi⟩).title ≠ (books.get ⟨j, hj⟩).title := by
  rw [List.pairwise_iff_get] at hd
  rcases Nat.lt_or_ge i j with hlt | hge
  · exact hd ⟨i, hi⟩ ⟨j, hj⟩ hlt
  · have hlt : j < i := by omega
    exact (hd ⟨j, hj⟩ ⟨i, hi⟩ hlt).symm

theorem allocated_minutes_nil (bt : String) : allocated_minutes bt [] = 0 := rfl

theorem calc_minutes_nonneg (bk : Book) (speeds : List (String × ℚ))
    (hs : ∀ p ∈ speeds, 0 < p.2) : 0 ≤ calculate_reading_time_minutes bk speeds := by
  unfold calculate_reading_time_minutes dict_get
  cases hfind : speeds.find? (fun p => p.1 == bk.category) with
  | none =>
    show (0 : ℚ) ≤ (bk.pages : ℚ) * 2
    positivity
  | some p =>
    show (0 : ℚ) ≤ (bk.pages : ℚ) * p.2
    have hp := hs p (List.mem_of_find?_eq_some hfind)
    have hpn : (0 : ℚ) ≤ (bk.pages : ℚ) := by positivity
    nlinarith

theorem session_step_alloc (hashF : String → Int) (clock : Nat → Int) (cfg : PlanConfig)
    (books : List Book) (current_date : Nat) (st : EngineState) (s rem : ℚ)
    (h : st.current_book_index < books.length)
    (hd : books.Pairwise (fun a b => a.title ≠ b.title))
    (hreq : ∀ bk ∈ books, 0 ≤ calculate_reading_time_minutes bk cfg.reading_speeds)
    (hinv : alloc_inv books cfg.reading_speeds st) :
    alloc_inv books cfg.reading_speeds
      (session_step hashF clock cfg books current_date st s rem h).1 := by
  obtain ⟨hlen, hle, hbuck⟩ := hinv
  simp only [session_step]
  by_cases ht : min rem st.current_book_remaining_min ≤ 0
  · rw [if_pos ht]
    exact ⟨hlen, hle, hbuck⟩
  · rw [if_neg ht]
    have htpos : 0 < min rem st.current_book_remaining_min := lt_of_not_le ht
    have htle : min rem st.current_book_remaining_min ≤ st.current_book_remaining_min :=
      min_le_right _ _
    obtain ⟨ev1, he1, hs1, hend1, hsum1, _⟩ := add_event_spec hashF clock st.events s
      (min rem st.current_book_remaining_min) _ _ cfg.organizer_email cfg.organizer_name
      plan_reminders "Sala de estudio" "CONFIRMED" false
    rw [he1]
    have hdur1 : event_duration ev1 = min rem st.current_book_remaining_min := by
      rw [event_duration, hend1, hs1]
      ring
    have halloc1 : ∀ bt, allocated_minutes bt (st.events ++ [ev1]) =
        allocated_minutes bt st.events +
          (if (books.get ⟨st.current_book_index, h⟩).title = bt
            then min rem st.current_book_remaining_min else 0) := by
      intro bt
      rw [allocated_minutes_snoc_reading bt _ st.events ev1 hsum1, hdur1]
    by_cases hc : st.current_book_remaining_min - min rem st.current_book_remaining_min ≤ 1 / 10
    · rw [if_pos hc]
      obtain ⟨ev2, he2, _, _, hsum2⟩ := schedule_book_review_spec hashF clock
        (st.events ++ [ev1]) (current_date + 1) _ _ cfg.review_time_per_book_min
        cfg.start_time_review cfg.reading_weekdays cfg.organizer_email cfg.organizer_name
        plan_reminders
      rw [he2]
      have halloc2 : ∀ bt, allocated_minutes bt ((st.events ++ [ev1]) ++ [ev2]) =
          allocated_minutes bt st.events +
            (if (books.get ⟨st.current_book_index, h⟩).title = bt
              then min rem st.current_book_remaining_min else 0) := by
        intro bt
        rw [allocated_minutes_snoc_other bt _ ev2
          (by rw [hsum2]; exact escape_review_ne_reading _ bt), halloc1]
      split
      · next h2 =>
        simp only [alloc_inv]
        refine ⟨by simp [hlen], by omega, ?_⟩
        intro i hi
        refine ⟨?_, ?_, ?_⟩
        · intro hilt
          rw [halloc2]
          by_cases hieq : i = st.current_book_index
          · have hg : books.get ⟨i, hi⟩ = books.get ⟨st.current_book_index, h⟩ := by
              congr 1
              exact Fin.ext hieq
            rw [hg, if_pos rfl]
            obtain ⟨hcur, hnn⟩ := (hbuck i hi).2.1 hieq
            rw [hg] at hcur
            rw [hcur]
            constructor <;> linarith
          · have hne : (books.get ⟨st.current_book_index, h⟩).title ≠
                (books.get ⟨i, hi⟩).title :=
              distinct_titles_get books hd _ _ h hi (fun hh => hieq hh.symm)
            rw [if_neg hne]
            obtain ⟨hlo, hhi⟩ := (hbuck i hi).1 (by omega)
            constructor <;> linarith
        · intro hieq
          rw [halloc2]
          have hne : (books.get ⟨st.current_book_index, h⟩).title ≠
              (books.get ⟨i, hi⟩).title :=
            distinct_titles_get books hd _ _ h hi (by omega)
          rw [if_neg hne]
          rw [(hbuck i hi).2.2 (by omega)]
          have hgeq : books.get ⟨i, hi⟩ = books.get ⟨st.current_book_index + 1, h2⟩ := by
            congr 1
            exact Fin.ext hieq
          rw [hgeq]
          constructor
          · ring
          · exact hreq _ (List.get_mem books _ _)
        · intro hilt
          rw [halloc2]
          have hne : (books.get ⟨st.current_book_index, h⟩).title ≠
              (books.get ⟨i, hi⟩).title :=
            distinct_titles_get books hd _ _ h hi (by omega)
          rw [if_neg hne]
          rw [(hbuck i hi).2.2 (by omega)]
          ring
      · next h2 =>
        simp only [alloc_inv]
        have halloc3 : ∀ bt, allocated_minutes bt
            (if 0 < rem - min rem st.current_book_remaining_min then
              add_event hashF clock ((st.events ++ [ev1]) ++ [ev2])
                (s + min rem st.current_book_remaining_min)
                (rem - min rem st.current_book_remaining_min) "🎓 REVISIÓN GENERAL FINAL"
                ("Sesión de integración. ¡Todos los libros completados!\n" ++
                  "Libros completados: " ++
                  toString (st.books_completed ++
                    [(⟨(books.get ⟨st.current_book_index, h⟩).title,
                      py_round2 (calculate_reading_time_hours
                        (books.get ⟨st.current_book_index, h⟩) cfg.reading_speeds),
                      current_date⟩ : CompletedBook)]).length)
                cfg.organizer_email cfg.organizer_name plan_reminders "" "CONFIRMED" true
            else (st.events ++ [ev1]) ++ [ev2]) =
            allocated_minutes bt st.events +
              (if (books.get ⟨st.current_book_index, h⟩).title = bt
                then min rem st.current_book_remaining_min else 0) := by
          intro bt
          split
          · obtain ⟨ev3, he3, _, _, hsum3, _⟩ := add_event_spec hashF clock
              ((st.events ++ [ev1]) ++ [ev2]) (s + min rem st.current_book_remaining_min)
              (rem - min rem st.current_book_remaining_min) _ _ cfg.organizer_email
              cfg.organizer_name plan_reminders "" "CONFIRMED" true
            rw [he3, allocated_minutes_snoc_other bt _ ev3
              (by rw [hsum3]; exact escape_final_ne_reading bt), halloc2]
          · rw [halloc2]
        refine ⟨by simp [hlen], by omega, ?_⟩
        intro i hi
        refine ⟨?_, ?_, ?_⟩
        · intro hilt
          rw [halloc3]
          by_cases hieq : i = st.current_book_index
          · have hg : books.get ⟨i, hi⟩ = books.get ⟨st.current_book_index, h⟩ := by
              congr 1
              exact Fin.ext hieq
            rw [hg, if_pos rfl]
            obtain ⟨hcur, hnn⟩ := (hbuck i hi).2.1 hieq
            rw [hg] at hcur
            rw [hcur]
            constructor <;> linarith
          · have hne : (books.get ⟨st.current_book_index, h⟩).title ≠
                (books.get ⟨i, hi⟩).title :=
              distinct_titles_get books hd _ _ h hi (fun hh => hieq hh.symm)
            rw [if_neg hne]
            obtain ⟨hlo, hhi⟩ := (hbuck i hi).1 (by omega)
            constructor <;> linarith
        · intro hieq
          omega
        · intro hilt
          omega
    · rw [if_neg hc]
      simp only [alloc_inv]
      refine ⟨hlen, hle, ?_⟩
      intro i hi
      refine ⟨?_, ?_, ?_⟩
      · intro hilt
        rw [halloc1]
        have hne : (books.get ⟨st.current_book_index, h⟩).title ≠
            (books.get ⟨i, hi⟩).title :=
          distinct_titles_get books hd _ _ h hi (by omega)
        rw [if_neg hne]
        obtain ⟨hlo, hhi⟩ := (hbuck i hi).1 hilt
        constructor <;> linarith
      · intro hieq
        rw [halloc1]
        have hg : books.get ⟨i, hi⟩ = books.get ⟨st.current_book_index, h⟩ := by
          congr 1
          exact Fin.ext hieq
        rw [hg, if_pos rfl]
        obtain ⟨hcur, _⟩ := (hbuck i hi).2.1 hieq
        rw [hg] at hcur
        rw [hcur]
        constructor
        · ring
        · linarith
      · intro hilt
        rw [halloc1]
        have hne : (books.get ⟨st.current_book_index, h⟩).title ≠
            (books.get ⟨i, hi⟩).title :=
          distinct_titles_get books hd _ _ h hi (by omega)
        rw [if_neg hne]
        rw [(hbuck i hi).2.2 hilt]
        ring

theorem session_loop_alloc (hashF : String → Int) (clock : Nat → Int) (cfg : PlanConfig)
    (books : List Book) (current_date : Nat)
    (hd : books.Pairwise (fun a b => a.title ≠ b.title))
    (hreq : ∀ bk ∈ books, 0 ≤ calculate_reading_time_minutes bk cfg.reading_speeds) :
    ∀ (fuel : Nat) (st : EngineState) (s rem : ℚ), alloc_inv books cfg.reading_speeds st →
      alloc_inv books cfg.reading_speeds
        (session_loop hashF clock cfg books current_date fuel st s rem) := by
  intro fuel
  induction fuel with
  | zero => intro st s rem hinv; exact hinv
  | succ fuel ih =>
    intro st s rem hinv
    simp only [session_loop]
    by_cases hcond : 0 < rem ∧ st.current_book_index < books.length
    · rw [dif_pos hcond]
      have hstep := session_step_alloc hashF clock cfg books current_date st s rem hcond.2
        hd hreq hinv
      split
      · exact hstep
      · exact ih _ _ _ hstep
    · rw [dif_neg hcond]
      exact hinv

theorem day_loop_alloc (hashF : String → Int) (clock : Nat → Int) (cfg : PlanConfig)
    (books : List Book) (hd : books.Pairwise (fun a b => a.title ≠ b.title))
    (hreq : ∀ bk ∈ books, 0 ≤ calculate_reading_time_minutes bk cfg.reading_speeds) :
    ∀ (fuel d : Nat) (st : EngineState), alloc_inv books cfg.reading_speeds st →
      alloc_inv books cfg.reading_speeds (day_loop hashF clock cfg books fuel d st).2 := by
  intro fuel
  induction fuel with
  | zero => intro d st hinv; exact hinv
  | succ fuel ih =>
    intro d st hinv
    simp only [day_loop]
    by_cases hle : d ≤ cfg.end_date
    · rw [if_pos hle]
      by_cases hwd : d % 7 ∈ cfg.reading_weekdays
      · rw [if_pos hwd]
        have hsess := session_loop_alloc hashF clock cfg books d hd hreq
          (books.length + 2) st ((d : ℚ) * 1440 + cfg.start_time_books)
          cfg.daily_time_total_minutes hinv
        split
        · exact hsess
        · exact ih _ _ hsess
      · rw [if_neg hwd]
        split
        · exact hinv
        · exact ih _ _ hinv
    · rw [if_neg hle]
      exact hinv

/-- C1, amended: exact conservation fails (see the counterexample — the
0.1 completion tolerance can discard up to 0.1 minutes of a book), but it
holds up to that tolerance: for a non-empty book list with pairwise
distinct titles, positive page counts and positive reading speeds, if the
run completes every book (the ledger holds one row per book — the
"window large enough" premise), then for each book the summed durations
of its reading-session events lie between
`calculate_reading_time_minutes(b) - 0.1` and
`calculate_reading_time_minutes(b)`. -/
theorem claim1_amended (hashF : String → Int) (clock : Nat → Int) (b : Book) (bs : List Book)
    (cfg : PlanConfig) (hd : (b :: bs).Pairwise (fun x y => x.title ≠ y.title))
    (_hp : ∀ bk ∈ b :: bs, 0 < bk.pages) (hs : ∀ p ∈ cfg.reading_speeds, 0 < p.2)
    (hcompl : (create_reading_plan hashF clock (b :: bs) cfg).2.1.length = (b :: bs).length) :
    ∀ bk ∈ b :: bs,
      calculate_reading_time_minutes bk cfg.reading_speeds - 1 / 10 ≤
        allocated_minutes bk.title (create_reading_plan hashF clock (b :: bs) cfg).1 ∧
      allocated_minutes bk.title (create_reading_plan hashF clock (b :: bs) cfg).1 ≤
        calculate_reading_time_minutes bk cfg.reading_speeds := by
  have hreq : ∀ bk ∈ b :: bs, 0 ≤ calculate_reading_time_minutes bk cfg.reading_speeds :=
    fun bk _ => calc_minutes_nonneg bk cfg.reading_speeds hs
  have hinv0 : alloc_inv (b :: bs) cfg.reading_speeds
      ⟨[], [], 0, calculate_reading_time_minutes b cfg.reading_speeds⟩ := by
    simp only [alloc_inv]
    refine ⟨rfl, by simp, ?_⟩
    intro i hi
    refine ⟨by omega, ?_, ?_⟩
    · intro hieq
      have hb0 : (b :: bs).get ⟨i, hi⟩ = b := by
        have : i = 0 := hieq
        subst this
        rfl
      rw [hb0, allocated_minutes_nil]
      exact ⟨by ring, hreq b (by simp)⟩
    · intro _
      exact allocated_minutes_nil _
  have hfin := day_loop_alloc hashF clock cfg (b :: bs) hd hreq
    (cfg.end_date + 2 - cfg.start_date) cfg.start_date
    ⟨[], [], 0, calculate_reading_time_minutes b cfg.reading_speeds⟩ hinv0
  obtain ⟨hlen, hle, hbuck⟩ := hfin
  intro bk hbk
  obtain ⟨⟨i, hi⟩, rfl⟩ := List.mem_iff_get.mp hbk
  have hev : (create_reading_plan hashF clock (b :: bs) cfg).1 =
      (day_loop hashF clock cfg (b :: bs) (cfg.end_date + 2 - cfg.start_date) cfg.start_date
        ⟨[], [], 0, calculate_reading_time_minutes b cfg.reading_speeds⟩).2.events := rfl
  have hledger : (create_reading_plan hashF clock (b :: bs) cfg).2.1 =
      (day_loop hashF clock cfg (b :: bs) (cfg.end_date + 2 - cfg.start_date) cfg.start_date
        ⟨[], [], 0, calculate_reading_time_minutes b cfg.reading_speeds⟩).2.books_completed :=
    rfl
  rw [hledger] at hcompl
  have hidx : (b :: bs).length ≤
      (day_loop hashF clock cfg (b :: bs) (cfg.end_date + 2 - cfg.start_date)
        cfg.start_date
        ⟨[], [], 0, calculate_reading_time_minutes b cfg.reading_speeds⟩).2.current_book_index := by
    omega
  rw [hev]
  exact (hbuck i hi).1 (by omega)

theorem claim1_witness :
    (cexA_books.Pairwise (fun x y => x.title ≠ y.title)) ∧
    (∀ bk ∈ cexA_books, 0 < bk.pages) ∧
    (∀ p ∈ cexA_cfg.reading_speeds, 0 < p.2) ∧
    ((create_reading_plan hash0 clock0 cexA_books cexA_cfg).2.1.length = cexA_books.length) ∧
    (∀ bk ∈ cexA_books,
      calculate_reading_time_minutes bk cexA_cfg.reading_speeds - 1 / 10 ≤
        allocated_minutes bk.title (create_reading_plan hash0 clock0 cexA_books cexA_cfg).1 ∧
      allocated_minutes bk.title (create_reading_plan hash0 clock0 cexA_books cexA_cfg).1 ≤
        calculate_reading_time_minutes bk cexA_cfg.reading_speeds) := by
  have hcompl : (create_reading_plan hash0 clock0 cexA_books cexA_cfg).2.1.length =
      cexA_books.length := by
    rw [cexA_run]
    rfl
  refine ⟨by decide, by decide, by norm_num [cexA_cfg], hcompl, ?_⟩
  exact claim1_amended hash0 clock0 ⟨"B", 1, "X"⟩ [] cexA_cfg (by decide) (by decide)
    (by norm_num [cexA_cfg]) hcompl

theorem add_event_stamp (hashF : String → Int) (c₁ c₂ : Nat → Int) (l₁ l₂ : List Event)
    (dt m : ℚ) (su de oe oname : String) (rc : RemindersConfig) (loc status : String)
    (rev : Bool) (hst : l₁.map drop_stamp = l₂.map drop_stamp) :
    (add_event hashF c₁ l₁ dt m su de oe oname rc loc status rev).map drop_stamp =
      (add_event hashF c₂ l₂ dt m su de oe oname rc loc status rev).map drop_stamp := by
  simp only [add_event, List.map_append, hst]
  rfl

theorem schedule_book_review_stamp (hashF : String → Int) (c₁ c₂ : Nat → Int)
    (l₁ l₂ : List Event) (rd : Nat) (bn : String) (bh rt strt : ℚ) (wds : List Nat)
    (oe oname : String) (rc : RemindersConfig)
    (hst : l₁.map drop_stamp = l₂.map drop_stamp) :
    (schedule_book_review hashF c₁ l₁ rd bn bh rt strt wds oe oname rc).map drop_stamp =
      (schedule_book_review hashF c₂ l₂ rd bn bh rt strt wds oe oname rc).map drop_stamp := by
  simp only [schedule_book_review]
  exact add_event_stamp hashF c₁ c₂ l₁ l₂ _ _ _ _ _ _ _ _ _ _ hst

theorem session_step_stamp (hashF : String → Int) (c₁ c₂ : Nat → Int) (cfg : PlanConfig)
    (books : List Book) (current_date : Nat) (e₁ e₂ : List Event) (bc : List CompletedBook)
    (idx : Nat) (rm : ℚ) (s rem : ℚ) (h : idx < books.length)
    (hst : e₁.map drop_stamp = e₂.map drop_stamp) :
    eq_mod_stamp (session_step hashF c₁ cfg books current_date ⟨e₁, bc, idx, rm⟩ s rem h).1
      (session_step hashF c₂ cfg books current_date ⟨e₂, bc, idx, rm⟩ s rem h).1 ∧
    (session_step hashF c₁ cfg books current_date ⟨e₁, bc, idx, rm⟩ s rem h).2 =
      (session_step hashF c₂ cfg books current_date ⟨e₂, bc, idx, rm⟩ s rem h).2 := by
  simp only [session_step]
  by_cases ht : min rem rm ≤ 0
  · rw [if_pos ht, if_pos ht]
    exact ⟨⟨hst, rfl, rfl, rfl⟩, rfl⟩
  · rw [if_neg ht, if_neg ht]
    have hev1 : (add_event hashF c₁ e₁ s (min rem rm)
        ("📚 LECTURA: " ++ (books.get ⟨idx, h⟩).title)
        ("Sesión de lectura profunda\n\n" ++ "📖 Libro: " ++ (books.get ⟨idx, h⟩).title ++
          "\n" ++ "⏳ Tiempo restante del libro: " ++ format_f0 rm ++ " min\n" ++
          "⏱️ Duración sesión: " ++ format_f0 (min rem rm) ++ " min")
        cfg.organizer_email cfg.organizer_name plan_reminders "Sala de estudio" "CONFIRMED"
        false).map drop_stamp =
        (add_event hashF c₂ e₂ s (min rem rm)
        ("📚 LECTURA: " ++ (books.get ⟨idx, h⟩).title)
        ("Sesión de lectura profunda\n\n" ++ "📖 Libro: " ++ (books.get ⟨idx, h⟩).title ++
          "\n" ++ "⏳ Tiempo restante del libro: " ++ format_f0 rm ++ " min\n" ++
          "⏱️ Duración sesión: " ++ format_f0 (min rem rm) ++ " min")
        cfg.organizer_email cfg.organizer_name plan_reminders "Sala de estudio" "CONFIRMED"
        false).map drop_stamp :=
      add_event_stamp hashF c₁ c₂ e₁ e₂ _ _ _ _ _ _ _ _ _ _ hst
    by_cases hc : rm - min rem rm ≤ 1 / 10
    · rw [if_pos hc, if_pos hc]
      have hev2 := schedule_book_review_stamp hashF c₁ c₂ _ _ (current_date + 1)
        (books.get ⟨idx, h⟩).title
        (calculate_reading_time_hours (books.get ⟨idx, h⟩) cfg.reading_speeds)
        cfg.review_time_per_book_min cfg.start_time_review cfg.reading_weekdays
        cfg.organizer_email cfg.organizer_name plan_reminders hev1
      split
      · exact ⟨⟨hev2, rfl, rfl, rfl⟩, rfl⟩
      · by_cases hf : 0 < rem - min rem rm
        · rw [if_pos hf, if_pos hf]
          exact ⟨⟨add_event_stamp hashF c₁ c₂ _ _ _ _ _ _ _ _ _ _ _ _ hev2, rfl, rfl, rfl⟩,
            rfl⟩
        · rw [if_neg hf, if_neg hf]
          exact ⟨⟨hev2, rfl, rfl, rfl⟩, rfl⟩
    · rw [if_neg hc, if_neg hc]
      exact ⟨⟨hev1, rfl, rfl, rfl⟩, rfl⟩

theorem session_loop_stamp (hashF : String → Int) (c₁ c₂ : Nat → Int) (cfg : PlanConfig)
    (books : List Book) (current_date : Nat) :
    ∀ (fuel : Nat) (st₁ st₂ : EngineState) (s rem : ℚ), eq_mod_stamp st₁ st₂ →
      eq_mod_stamp (session_loop hashF c₁ cfg books current_date fuel st₁ s rem)
        (session_loop hashF c₂ cfg books current_date fuel st₂ s rem) := by
  intro fuel
  induction fuel with
  | zero => intro st₁ st₂ s rem hmod; exact hmod
  | succ fuel ih =>
    intro st₁ st₂ s rem hmod
    obtain ⟨e₁, bc₁, idx₁, rm₁⟩ := st₁
    obtain ⟨e₂, bc₂, idx₂, rm₂⟩ := st₂
    obtain ⟨hst, hbc, hidx, hrm⟩ := hmod
    simp only at hst hbc hidx hrm
    subst hbc; subst hidx; subst hrm
    simp only [session_loop]
    by_cases hcond : 0 < rem ∧ idx₁ < books.length
    · rw [dif_pos hcond, dif_pos hcond]
      obtain ⟨hmod', heq'⟩ := session_step_stamp hashF c₁ c₂ cfg books current_date e₁ e₂
        bc₁ idx₁ rm₁ s rem hcond.2 hst
      rw [heq']
      split
      · exact hmod'
      · rw [show (session_step hashF c₂ cfg books current_date ⟨e₂, bc₁, idx₁, rm₁⟩ s rem
            hcond.2).2.1 = (session_step hashF c₂ cfg books current_date
            ⟨e₂, bc₁, idx₁, rm₁⟩ s rem hcond.2).2.1 from rfl]
        exact ih _ _ _ _ hmod'
    · rw [dif_neg hcond, dif_neg hcond]
      exact ⟨hst, rfl, rfl, rfl⟩

theorem day_loop_stamp (hashF : String → Int) (c₁ c₂ : Nat → Int) (cfg : PlanConfig)
    (books : List Book) :
    ∀ (fuel d : Nat) (st₁ st₂ : EngineState), eq_mod_stamp st₁ st₂ →
      (day_loop hashF c₁ cfg books fuel d st₁).1 = (day_loop hashF c₂ cfg books fuel d st₂).1 ∧
      eq_mod_stamp (day_loop hashF c₁ cfg books fuel d st₁).2
        (day_loop hashF c₂ cfg books fuel d st₂).2 := by
  intro fuel
  induction fuel with
  | zero => intro d st₁ st₂ hmod; exact ⟨rfl, hmod⟩
  | succ fuel ih =>
    intro d st₁ st₂ hmod
    simp only [day_loop]
    by_cases hle : d ≤ cfg.end_date
    · rw [if_pos hle, if_pos hle]
      by_cases hwd : d % 7 ∈ cfg.reading_weekdays
      · rw [if_pos hwd, if_pos hwd]
        have hsess := session_loop_stamp hashF c₁ c₂ cfg books d (books.length + 2) st₁ st₂
          ((d : ℚ) * 1440 + cfg.start_time_books) cfg.daily_time_total_minutes hmod
        rw [show (session_loop hashF c₂ cfg books d (books.length + 2) st₂
            ((d : ℚ) * 1440 + cfg.start_time_books) cfg.daily_time_total_minutes).current_book_index =
            (session_loop hashF c₁ cfg books d (books.length + 2) st₁
            ((d : ℚ) * 1440 + cfg.start_time_books) cfg.daily_time_total_minutes).current_book_index
            from hsess.2.2.1.symm]
        split
        · exact ⟨rfl, hsess⟩
        · exact ih _ _ _ hsess
      · rw [if_neg hwd, if_neg hwd]
        rw [show st₂.current_book_index = st₁.current_book_index from hmod.2.2.1.symm]
        split
        · exact ⟨rfl, hmod⟩
        · exact ih _ _ _ hmod
    · rw [if_neg hle, if_neg hle]
      exact ⟨rfl, hmod⟩

theorem add_event_uid_ok (hashF : String → Int) (clock : Nat → Int) (l : List Event)
    (dt m : ℚ) (su de oe oname : String) (rc : RemindersConfig) (loc status : String)
    (rev : Bool) (hok : uid_ok hashF l) :
    uid_ok hashF (add_event hashF clock l dt m su de oe oname rc loc status rev) := by
  obtain ⟨ev, he, hs, _, hsum, huid⟩ := add_event_spec hashF clock l dt m su de oe oname rc
    loc status rev
  rw [he]
  intro e hmem
  rcases List.mem_append.mp hmem with hm | hm
  · exact hok e hm
  · rcases List.mem_singleton.mp hm with rfl
    rw [huid, hs, hsum, get_ics_uid, unescape_escape_ics]

theorem schedule_book_review_uid_ok (hashF : String → Int) (clock : Nat → Int)
    (l : List Event) (rd : Nat) (bn : String) (bh rt strt : ℚ) (wds : List Nat)
    (oe oname : String) (rc : RemindersConfig) (hok : uid_ok hashF l) :
    uid_ok hashF (schedule_book_review hashF clock l rd bn bh rt strt wds oe oname rc) := by
  simp only [schedule_book_review]
  exact add_event_uid_ok hashF clock l _ _ _ _ _ _ _ _ _ _ hok

theorem session_step_uid_ok (hashF : String → Int) (clock : Nat → Int) (cfg : PlanConfig)
    (books : List Book) (current_date : Nat) (st : EngineState) (s rem : ℚ)
    (h : st.current_book_index < books.length) (hok : uid_ok hashF st.events) :
    uid_ok hashF (session_step hashF clock cfg books current_date st s rem h).1.events := by
  simp only [session_step]
  by_cases ht : min rem st.current_book_remaining_min ≤ 0
  · rw [if_pos ht]
    exact hok
  · rw [if_neg ht]
    by_cases hc : st.current_book_remaining_min - min rem st.current_book_remaining_min ≤ 1 / 10
    · rw [if_pos hc]
      split
      · exact schedule_book_review_uid_ok _ _ _ _ _ _ _ _ _ _ _ _
          (add_event_uid_ok _ _ _ _ _ _ _ _ _ _ _ _ _ hok)
      · split
        · exact add_event_uid_ok _ _ _ _ _ _ _ _ _ _ _ _ _
            (schedule_book_review_uid_ok _ _ _ _ _ _ _ _ _ _ _ _
              (add_event_uid_ok _ _ _ _ _ _ _ _ _ _ _ _ _ hok))
        · exact schedule_book_review_uid_ok _ _ _ _ _ _ _ _ _ _ _ _
            (add_event_uid_ok _ _ _ _ _ _ _ _ _ _ _ _ _ hok)
    · rw [if_neg hc]
      exact add_event_uid_ok _ _ _ _ _ _ _ _ _ _ _ _ _ hok

theorem session_loop_uid_ok (hashF : String → Int) (clock : Nat → Int) (cfg : PlanConfig)
    (books : List Book) (current_date : Nat) :
    ∀ (fuel : Nat) (st : EngineState) (s rem : ℚ), uid_ok hashF st.events →
      uid_ok hashF (session_loop hashF clock cfg books current_date fuel st s rem).events := by
  intro fuel
  induction fuel with
  | zero => intro st s rem hok; exact hok
  | succ fuel ih =>
    intro st s rem hok
    simp only [session_loop]
    by_cases hcond : 0 < rem ∧ st.current_book_index < books.length
    · rw [dif_pos hcond]
      have hstep := session_step_uid_ok hashF clock cfg books current_date st s rem hcond.2 hok
      split
      · exact hstep
      · exact ih _ _ _ hstep
    · rw [dif_neg hcond]
      exact hok

theorem day_loop_uid_ok (hashF : String → Int) (clock : Nat → Int) (cfg : PlanConfig)
    (books : List Book) :
    ∀ (fuel d : Nat) (st : EngineState), uid_ok hashF st.events →
      uid_ok hashF (day_loop hashF clock cfg books fuel d st).2.events := by
  intro fuel
  induction fuel with
  | zero => intro d st hok; exact hok
  | succ fuel ih =>
    intro d st hok
    simp only [day_loop]
    by_cases hle : d ≤ cfg.end_date
    · rw [if_pos hle]
      by_cases hwd : d % 7 ∈ cfg.reading_weekdays
      · rw [if_pos hwd]
        have hsess := session_loop_uid_ok hashF clock cfg books d (books.length + 2) st
          ((d : ℚ) * 1440 + cfg.start_time_books) cfg.daily_time_total_minutes hok
        split
        · exact hsess
        · exact ih _ _ hsess
      · rw [if_neg hwd]
        split
        · exact hok
        · exact ih _ _ hok
    · rw [if_neg hle]
      exact hok

/-- C10: two invocations of `create_reading_plan` with identical inputs
(same book list, configuration, and — within one interpreter session —
the same string hash) but different wall clocks return event lists that
agree in every field except `dtstamp` (their stamp-erased images are
equal), identical ledgers, and identical statistics; and every emitted
event's uid is determined solely by the calendar date of its start
timestamp and its summary title (it is the pair of that date with the
hash of the unescaped summary). -/
theorem claim10_determinism (hashF : String → Int) (clock₁ clock₂ : Nat → Int)
    (books : List Book) (cfg : PlanConfig) :
    (create_reading_plan hashF clock₁ books cfg).1.map drop_stamp =
      (create_reading_plan hashF clock₂ books cfg).1.map drop_stamp ∧
    (create_reading_plan hashF clock₁ books cfg).2.1 =
      (create_reading_plan hashF clock₂ books cfg).2.1 ∧
    (create_reading_plan hashF clock₁ books cfg).2.2 =
      (create_reading_plan hashF clock₂ books cfg).2.2 ∧
    ∀ e ∈ (create_reading_plan hashF clock₁ books cfg).1,
      e.uid = (⌊e.dtstart / 1440⌋, hashF (unescape_ics_text e.summary)) := by
  match books with
  | [] => exact ⟨rfl, rfl, rfl, by intro e he; simp [create_reading_plan] at he⟩
  | b :: bs =>
    obtain ⟨hstop, hst, hbc, _, _⟩ := day_loop_stamp hashF clock₁ clock₂ cfg (b :: bs)
      (cfg.end_date + 2 - cfg.start_date) cfg.start_date
      ⟨[], [], 0, calculate_reading_time_minutes b cfg.reading_speeds⟩
      ⟨[], [], 0, calculate_reading_time_minutes b cfg.reading_speeds⟩
      ⟨rfl, rfl, rfl, rfl⟩
    have hlen : (day_loop hashF clock₁ cfg (b :: bs) (cfg.end_date + 2 - cfg.start_date)
        cfg.start_date ⟨[], [], 0, calculate_reading_time_minutes b cfg.reading_speeds⟩).2.events.length =
        (day_loop hashF clock₂ cfg (b :: bs) (cfg.end_date + 2 - cfg.start_date)
        cfg.start_date ⟨[], [], 0, calculate_reading_time_minutes b cfg.reading_speeds⟩).2.events.length := by
      have := congrArg List.length hst
      simpa using this
    refine ⟨hst, hbc, ?_, ?_⟩
    · simp only [create_reading_plan]
      rw [hlen, hbc, hstop]
    · have hok := day_loop_uid_ok hashF clock₁ cfg (b :: bs)
        (cfg.end_date + 2 - cfg.start_date) cfg.start_date
        ⟨[], [], 0, calculate_reading_time_minutes b cfg.reading_speeds⟩
        (by intro e he; simp at he)
      intro e he
      exact hok e he

end PlanLectura
